import Mathlib

/-!
Verification development for the gocmd `flagset` package.

The definitions below are a shallow embedding of the package's argument
segmentation, flag binding/resolution, construction-time validation and
command segmentation.  Go strings are Lean `String`s; the pieces of the Go
standard library that the package calls (`strings.TrimLeft`, `strings.Trim`,
`strings.TrimSpace`, `strings.Index`, `strings.SplitN`, `strings.Split`,
`strings.HasPrefix`, `strconv.ParseInt`, `strconv.ParseUint`,
`strconv.ParseFloat`) are modelled as executable Lean functions with the
library's documented behaviour; `float64` values are modelled as exact
rationals.  Mutation of the Go structures is made explicit by threading the
updated records through each pass.
-/

namespace Gocmd

/-- Double-quote character (Go `'"'`). -/
def dq : Char := Char.ofNat 34

/-- Single-quote character (Go `'\x27'`). -/
def sq : Char := Char.ofNat 39

/-- Model of Go `strings.TrimLeft(s, "-")`: drop every leading dash. -/
def goTrimLeftDashes (s : String) : String :=
  String.mk (s.toList.dropWhile (fun c => c == '-'))

/-- Drop leading characters satisfying `p` (helper for the trim functions). -/
def trimLeadingWhile (p : Char → Bool) (l : List Char) : List Char :=
  l.dropWhile p

/-- Drop trailing characters satisfying `p` (helper for the trim functions). -/
def trimTrailingWhile (p : Char → Bool) (l : List Char) : List Char :=
  (l.reverse.dropWhile p).reverse

/-- Model of Go `strings.TrimSpace`: drop leading and trailing whitespace. -/
def goTrimSpace (s : String) : String :=
  String.mk (trimTrailingWhile Char.isWhitespace (trimLeadingWhile Char.isWhitespace s.toList))

/-- Model of Go `strings.HasPrefix(s, pre)`. -/
def goStartsWith (s pre : String) : Bool :=
  pre.toList.isPrefixOf s.toList

/-- Index of the first occurrence of character `c` (Go `strings.Index` for a
one-character needle; `none` plays the role of Go's `-1`). -/
def idxOfC (c : Char) : List Char → Option Nat
  | [] => none
  | b :: bs => if b == c then some 0 else (idxOfC c bs).map (· + 1)

/-- Split at the first occurrence of `c` (Go `strings.SplitN(s, c, 2)`;
the result is the pair of the part before and the part after `c`, meaningful
when `c` occurs). -/
def splitAtFirst (c : Char) : List Char → List Char × List Char
  | [] => ([], [])
  | b :: bs =>
    if b == c then ([], bs)
    else
      let p := splitAtFirst c bs
      (b :: p.1, p.2)

/-- Model of Go `strings.Trim(s, cutset)` for a one-character cutset: drop
every leading and every trailing occurrence of `c`. -/
def goTrimChar (c : Char) (l : List Char) : List Char :=
  trimTrailingWhile (fun b => b == c) (trimLeadingWhile (fun b => b == c) l)

/-- Quote stripping applied by `parseArgs` to an extracted value
(flagset.go lines 524-528 and 536-540): when the value begins with a double
(resp. single) quote, `strings.Trim` it with that quote character. -/
def stripQuotes (v : String) : String :=
  if goStartsWith v (String.mk [dq]) then String.mk (goTrimChar dq v.toList)
  else if goStartsWith v (String.mk [sq]) then String.mk (goTrimChar sq v.toList)
  else v

/-- One raw token's classification (struct `Arg` of the package, keeping the
fields the resolution logic reads; the bookkeeping ids
`id`/`flagID`/`commandID`/`parentID`/`indexFrom`/`indexTo`/`updatedBy` are
dropped — the embedding below covers flag sets with no declared commands, in
which every token's `commandID` stays `-1`). -/
structure Arg where
  arg : String
  name : String := ""
  value : String := ""
  dash : String := ""
  hasEq : Bool := false
  unnamed : Bool := false
  unset : Bool := false
  kind : String := ""
  err : Option String := none
  deriving DecidableEq, Repr

/-- Initial classification of a raw token when no declared command matches
it (flagset.go lines 454-491 with an empty command list): kind `arg`. -/
def mkArg (s : String) : Arg :=
  { arg := s, kind := "arg" }

/-- Name and dash extraction for an `arg`-kind token
(flagset.go lines 500-506). -/
def classifyArg (a : Arg) : Arg :=
  { a with
    name := goTrimSpace (goTrimLeftDashes a.arg),
    dash := if goStartsWith a.arg "--" then "--"
            else if goStartsWith a.arg "-" then "-" else "" }

/-- The `=`-detection condition of flagset.go line 519:
`ieq > -1 && (ieq < iqo || iqo == -1)` where `ieq` is the index of the first
`=` and `iqo` the index of the first double quote, or else of the first
single quote (lines 514-518). -/
def eqBeforeQuote (name : String) : Bool :=
  match idxOfC '=' name.toList with
  | none => false
  | some ie =>
    match idxOfC dq name.toList with
    | some iq => decide (ie < iq)
    | none =>
      match idxOfC sq name.toList with
      | some iq => decide (ie < iq)
      | none => true

/-- Value extraction for the `=` form (flagset.go lines 520-528 and the
`unset` marking of lines 548-550): split the working name at the first `=`,
strip quotes from the value, and mark the value explicitly unset when it is
empty. -/
def procEq (b : Arg) : Arg :=
  let p := splitAtFirst '=' b.name.toList
  let v := stripQuotes (String.mk p.2)
  { b with hasEq := true, name := String.mk p.1, value := v, unset := v == "" }

/-- The per-token update loop of `parseArgs` (flagset.go lines 494-551),
for a flag set with no declared commands (all tokens enter with kind
`arg`).  A token turned into an `argval` by its predecessor is skipped by
the Go loop (`arg.kind != "arg"`), so it is emitted here unchanged together
with its consumer. -/
def parseArgsLoop : List Arg → List Arg
  | [] => []
  | [a] =>
    if !(a.kind == "arg") then [a]
    else
      let b := classifyArg a
      if b.dash == "" then [{ b with unnamed := true }]
      else if eqBeforeQuote b.name then [procEq b]
      else [b]
  | a :: next :: rest2 =>
    if !(a.kind == "arg") then a :: parseArgsLoop (next :: rest2)
    else
      let b := classifyArg a
      if b.dash == "" then { b with unnamed := true } :: parseArgsLoop (next :: rest2)
      else if eqBeforeQuote b.name then procEq b :: parseArgsLoop (next :: rest2)
      else if next.kind == "arg" && !(goStartsWith next.arg "-") then
        let v := stripQuotes next.arg
        { b with value := v }
          :: { next with kind := "argval", value := v }
          :: parseArgsLoop rest2
      else b :: parseArgsLoop (next :: rest2)

/-- Full argument segmentation of a raw token list (no declared commands). -/
def parseTokens (toks : List String) : List Arg :=
  parseArgsLoop (toks.map mkArg)

/-- The matching condition of flagset.go line 598 for a top-level flag
(`commandID` is always `-1` with no declared commands):
`arg.name != "" && (flag.short == arg.name || flag.long == arg.name)`. -/
def matchesFlag (short long : String) (a : Arg) : Bool :=
  !(a.name == "") && (short == a.name || long == a.name)

/-- The occurrences bound to a flag, in token order
(flagset.go lines 594-606). -/
def matchedArgs (short long : String) (args : List Arg) : List Arg :=
  args.filter (matchesFlag short long)

example : parseTokens ["--name=\"a b\""] =
    [{ arg := "--name=\"a b\"", name := "name", value := "a b", dash := "--",
       hasEq := true, kind := "arg" }] := by decide

example : parseTokens ["--str", "value"] =
    [{ arg := "--str", name := "str", value := "value", dash := "--", kind := "arg" },
     { arg := "value", value := "value", kind := "argval" }] := by decide

example : parseTokens ["--b="] =
    [{ arg := "--b=", name := "b", value := "", dash := "--",
       hasEq := true, unset := true, kind := "arg" }] := by decide

/-- A Go scalar value, as stored in a destination struct field.  `float64`
values are modelled as exact rationals. -/
inductive GoScalar where
  | b (x : Bool)
  | f (x : Rat)
  | i (x : Int)
  | u (x : Nat)
  | s (x : String)
  deriving DecidableEq, Repr

/-- A destination struct field's content: either one scalar or a slice. -/
inductive GoValue where
  | scalar (x : GoScalar)
  | list (xs : List GoScalar)
  deriving DecidableEq, Repr

/-- Elements of a slice-valued field (empty for a scalar field). -/
def goElems : GoValue → List GoScalar
  | .scalar _ => []
  | .list xs => xs

/-- Append one parsed element to a slice field (Go
`fv.Set(reflect.Append(fv, ...))`; the destination of a list-typed flag is
always a slice). -/
def appendElem (cur : GoValue) (e : GoScalar) : GoValue :=
  .list (goElems cur ++ [e])

/-- Digit string to number (helper for the `strconv` models): `none` unless
the list is nonempty and all decimal digits. -/
def digitsToNat : List Char → Option Nat
  | [] => none
  | l => l.foldl
      (fun acc c => acc.bind fun n =>
        if c.isDigit then some (10 * n + (c.toNat - 48)) else none)
      (some 0)

/-- Model of Go `strconv.ParseUint(s, 10, bits)`: decimal digits only (no
sign), value below `2 ^ bits`. -/
def goParseUint (s : String) (bits : Nat) : Option Nat :=
  (digitsToNat s.toList).bind fun n => if n < 2 ^ bits then some n else none

/-- Model of Go `strconv.ParseInt(s, 10, bits)`: optional sign, decimal
digits, value in the signed `bits`-bit range. -/
def goParseInt (s : String) (bits : Nat) : Option Int :=
  match s.toList with
  | '+' :: rest =>
    (digitsToNat rest).bind fun n =>
      if (n : Int) < 2 ^ (bits - 1) then some (n : Int) else none
  | '-' :: rest =>
    (digitsToNat rest).bind fun n =>
      if (n : Int) ≤ 2 ^ (bits - 1) then some (-(n : Int)) else none
  | l =>
    (digitsToNat l).bind fun n =>
      if (n : Int) < 2 ^ (bits - 1) then some (n : Int) else none

/-- Leading digits of a character list together with the remainder. -/
def spanDigits (l : List Char) : List Char × List Char :=
  (l.takeWhile Char.isDigit, l.dropWhile Char.isDigit)

/-- Value of a decimal mantissa/exponent pair as an exact rational. -/
def ratOfParts (sgn : Rat) (ip fp : List Char) (e : Int) : Rat :=
  sgn * (((digitsToNat (ip ++ fp)).getD 0 : Rat)) * (10 : Rat) ^ (e - (fp.length : Int))

/-- Model of Go `strconv.ParseFloat(s, 64)` (standard library, outside this
repository) for the decimal and exponent forms, with the value kept as an
exact rational: optional sign, integer and/or fraction digits, optional
`e`/`E` exponent. -/
def goParseFloat (s : String) : Option Rat :=
  let p := match s.toList with
    | '+' :: r => ((1 : Rat), r)
    | '-' :: r => ((-1 : Rat), r)
    | r => ((1 : Rat), r)
  let ipr := spanDigits p.2
  let fpr := match ipr.2 with
    | '.' :: r => spanDigits r
    | l => (([] : List Char), l)
  if ipr.1 = [] ∧ fpr.1 = [] then none
  else
    match fpr.2 with
    | [] => some (ratOfParts p.1 ipr.1 fpr.1 0)
    | c :: r =>
      if c = 'e' ∨ c = 'E' then
        let ep := match r with
          | '+' :: rr => ((1 : Int), rr)
          | '-' :: rr => ((-1 : Int), rr)
          | rr => ((1 : Int), rr)
        let ed := spanDigits ep.2
        if ed.1 = [] ∨ ed.2 ≠ [] then none
        else some (ratOfParts p.1 ipr.1 fpr.1 (ep.1 * ((digitsToNat ed.1).getD 0 : Int)))
      else none

/-- Fuel-driven splitter on a non-empty separator (helper for `goSplit`).
The accumulator holds the current piece reversed. -/
def splitSepF : Nat → List Char → List Char → List Char → List (List Char)
  | 0, _, acc, _ => [acc.reverse]
  | _ + 1, _, acc, [] => [acc.reverse]
  | fuel + 1, sep, acc, c :: rest =>
    if sep.isPrefixOf (c :: rest) then
      acc.reverse :: splitSepF fuel sep [] ((c :: rest).drop sep.length)
    else splitSepF fuel sep (c :: acc) rest

/-- Model of Go `strings.Split(s, sep)`: split around every instance of
`sep`; an empty separator explodes the string into characters. -/
def goSplit (s sep : String) : List String :=
  if sep = "" then s.toList.map fun c => String.mk [c]
  else (splitSepF (s.toList.length + 1) sep.toList [] s.toList).map String.mk

example : goSplit "1,x,2" "," = ["1", "x", "2"] := by decide
example : goSplit "a,,b," "," = ["a", "", "b", ""] := by decide
example : goSplit "" "," = [""] := by decide
example : goParseInt "-12" 64 = some (-12) := by decide
example : goParseUint "12x" 64 = none := by decide

/-- Model of the `supportedFlagTypes` constant.  Modelled from the spec: the
constant is declared in a repository file not included in the sources; the
spec lists the supported value types `bool, float64, int, int64, uint,
uint64, string` and their list forms, and command fields (whose value type
is normalised to `struct`) pass construction-time validation. -/
def supportedFlagTypes : List String :=
  ["bool", "float64", "int", "int64", "uint", "uint64", "string",
   "[]bool", "[]float64", "[]int", "[]int64", "[]uint", "[]uint64", "[]string",
   "struct"]

/-- Zero value of a destination field of the given declared type. -/
def zeroValue : String → GoValue
  | "bool" => .scalar (.b false)
  | "float64" => .scalar (.f 0)
  | "int" => .scalar (.i 0)
  | "int64" => .scalar (.i 0)
  | "uint" => .scalar (.u 0)
  | "uint64" => .scalar (.u 0)
  | "string" => .scalar (.s "")
  | _ => .list []

/-- Model of `FlagSet.setFlag` (flagset.go lines 614-739) restricted to the
value update itself: parse `value` for the declared type and write it into
the field `cur`.  Scalar writes overwrite, list writes append; numeric kinds
skip the write entirely when `value` is empty; parse failures return the
per-type error.  Note the list integer kinds parse with bit size 32
(lines 702 and 718) while the scalar kinds use 64. -/
def setFlagValue (t : String) (cur : GoValue) (value : String) : Except String GoValue :=
  match t with
  | "bool" =>
    if value ≠ "true" ∧ value ≠ "false" then
      .error ("failed to parse '" ++ value ++ "' as bool")
    else if value = "true" then .ok (.scalar (.b true))
    else .ok (.scalar (.b false))
  | "float64" =>
    if value ≠ "" then
      match goParseFloat value with
      | some q => .ok (.scalar (.f q))
      | none => .error ("failed to parse '" ++ value ++ "' as float64")
    else .ok cur
  | "int" =>
    if value ≠ "" then
      match goParseInt value 64 with
      | some v => .ok (.scalar (.i v))
      | none => .error ("failed to parse '" ++ value ++ "' as int")
    else .ok cur
  | "int64" =>
    if value ≠ "" then
      match goParseInt value 64 with
      | some v => .ok (.scalar (.i v))
      | none => .error ("failed to parse '" ++ value ++ "' as int64")
    else .ok cur
  | "uint" =>
    if value ≠ "" then
      match goParseUint value 64 with
      | some v => .ok (.scalar (.u v))
      | none => .error ("failed to parse '" ++ value ++ "' as uint")
    else .ok cur
  | "uint64" =>
    if value ≠ "" then
      match goParseUint value 64 with
      | some v => .ok (.scalar (.u v))
      | none => .error ("failed to parse '" ++ value ++ "' as uint64")
    else .ok cur
  | "string" => .ok (.scalar (.s value))
  | "[]bool" =>
    if value ≠ "true" ∧ value ≠ "false" then
      .error ("failed to parse '" ++ value ++ "' as bool")
    else if value = "true" then .ok (appendElem cur (.b true))
    else .ok (appendElem cur (.b false))
  | "[]float64" =>
    if value ≠ "" then
      match goParseFloat value with
      | some q => .ok (appendElem cur (.f q))
      | none => .error ("failed to parse '" ++ value ++ "' as float64")
    else .ok cur
  | "[]int" =>
    if value ≠ "" then
      match goParseInt value 32 with
      | some v => .ok (appendElem cur (.i v))
      | none => .error ("failed to parse '" ++ value ++ "' as int")
    else .ok cur
  | "[]int64" =>
    if value ≠ "" then
      match goParseInt value 64 with
      | some v => .ok (appendElem cur (.i v))
      | none => .error ("failed to parse '" ++ value ++ "' as int64")
    else .ok cur
  | "[]uint" =>
    if value ≠ "" then
      match goParseUint value 32 with
      | some v => .ok (appendElem cur (.u v))
      | none => .error ("failed to parse '" ++ value ++ "' as uint")
    else .ok cur
  | "[]uint64" =>
    if value ≠ "" then
      match goParseUint value 64 with
      | some v => .ok (appendElem cur (.u v))
      | none => .error ("failed to parse '" ++ value ++ "' as uint64")
    else .ok cur
  | "[]string" => .ok (appendElem cur (.s value))
  | _ => .error ("invalid type " ++ t ++ ". Supported types: " ++ String.intercalate " " supportedFlagTypes)

/-- Model of `FlagSet.unsetFlag` (flagset.go lines 742-800): reset the field
to its zero value. -/
def unsetFlagValue (t : String) : Except String GoValue :=
  match t with
  | "bool" => .ok (.scalar (.b false))
  | "float64" => .ok (.scalar (.f 0))
  | "int" => .ok (.scalar (.i 0))
  | "int64" => .ok (.scalar (.i 0))
  | "uint" => .ok (.scalar (.u 0))
  | "uint64" => .ok (.scalar (.u 0))
  | "string" => .ok (.scalar (.s ""))
  | "[]bool" => .ok (.list [])
  | "[]float64" => .ok (.list [])
  | "[]int" => .ok (.list [])
  | "[]int64" => .ok (.list [])
  | "[]uint" => .ok (.list [])
  | "[]uint64" => .ok (.list [])
  | "[]string" => .ok (.list [])
  | _ => .error ("invalid type " ++ t ++ ". Supported types: " ++ String.intercalate " " supportedFlagTypes)

/-- A declared flag's resolution-relevant state (struct `Flag` of the
package: the declaration fields read by `New`, the `valueBy` marker, the
destination field content `value`, and the per-flag error; the structural
ids `id`/`fieldIndex`/`parentIndex`/`parentID`/`commandID` are bookkeeping
for the reflection layer and are replaced by direct references below). -/
structure FlagR where
  name : String := ""
  short : String := ""
  long : String := ""
  command : String := ""
  kind : String := "arg"
  required : Bool := false
  env : String := ""
  delimiter : String := ""
  valueDefault : String := ""
  valueType : String
  valueBy : String := ""
  value : GoValue := .list []
  err : Option String := none
  deriving DecidableEq, Repr

/-- Truthy-bool defaulting of flagset.go lines 73-76: a bool-kind flag
matched with an empty, not explicitly unset value is treated as `true`. -/
def effVal (t : String) (a : Arg) : String :=
  if (t = "bool" ∨ t = "[]bool") ∧ a.value = "" ∧ ¬a.unset then "true" else a.value

/-- Bool kinds (`bool` and `[]bool`), as tested on flagset.go lines 74/80/83. -/
def isBoolKind (t : String) : Prop := t = "bool" ∨ t = "[]bool"

instance : DecidablePred isBoolKind := fun t => by unfold isBoolKind; infer_instance

/-- String kinds (`string` and `[]string`), as tested on flagset.go lines 80/83. -/
def isStringKind (t : String) : Prop := t = "string" ∨ t = "[]string"

instance : DecidablePred isStringKind := fun t => by unfold isStringKind; infer_instance

/-- One delimiter-split piece applied to a list-kind flag (the inner loop of
flagset.go lines 96-106): trim the piece, skip it when empty, otherwise
write it, recording a failure on the occurrence. -/
def delimStep (st : FlagR × Arg) (v0 : String) : FlagR × Arg :=
  let v := goTrimSpace v0
  if v == "" then st
  else
    match setFlagValue st.1.valueType st.1.value v with
    | .ok gv => ({ st.1 with value := gv }, st.2)
    | .error e => (st.1, { st.2 with err := some e })

/-- Truthy-bool defaulting followed by the empty-value error checks for one
matched occurrence of a flag of value type `t` (flagset.go lines 73-92):
`--bool=`, a bare `--string`, and a valueless non-bool non-string flag each
get the "needs a value" error. -/
def argCheck (t : String) (a : Arg) : Arg :=
  let a := { a with value := effVal t a }
  if a.value == "" then
    if (isBoolKind t ∧ a.unset) ∨ (isStringKind t ∧ ¬a.unset) then
      { a with err := some ("argument " ++ a.dash ++ a.name ++ " needs a value") }
    else if ¬isBoolKind t ∧ ¬isStringKind t then
      { a with err := some ("argument " ++ a.dash ++ a.name ++ " needs a value") }
    else a
  else a

/-- Value write of one checked occurrence (flagset.go lines 89-111): skipped
when the occurrence carries an error, split on the declared delimiter for
list kinds, a single `setFlag` call otherwise. -/
def applyArgValue (fl : FlagR) (a : Arg) : FlagR × Arg :=
  if a.err.isSome then (fl, a)
  else if fl.delimiter ≠ "" ∧ goStartsWith fl.valueType "[]" then
    (goSplit a.value fl.delimiter).foldl delimStep (fl, a)
  else
    match setFlagValue fl.valueType fl.value a.value with
    | .ok gv => ({ fl with value := gv }, a)
    | .error e => (fl, { a with err := some e })

/-- Application of one matched occurrence to an `arg`-kind flag (one
iteration of the loop of flagset.go lines 66-112): mark the flag resolved by
argument, run the value checks, and write the value.  Returns the updated
flag and the updated occurrence. -/
def applyArgStep (fl : FlagR) (a : Arg) : FlagR × Arg :=
  if !(a.kind == "arg") then (fl, a)
  else applyArgValue { fl with valueBy := "arg" } (argCheck fl.valueType a)

/-- The full per-flag argument pass (flagset.go lines 59-113 for one
`arg`-kind flag): fold `applyArgStep` over the flag's matched occurrences,
collecting the updated occurrences. -/
def resolveArgs (fl : FlagR) : List Arg → FlagR × List Arg
  | [] => (fl, [])
  | a :: as =>
    let p := applyArgStep fl a
    let q := resolveArgs p.1 as
    (q.1, p.2 :: q.2)

/-- Rollback of one erroring occurrence (flagset.go lines 119-129): when the
occurrence carries an error, reset the field to its zero value, recording an
`unsetFlag` failure on the flag. -/
def unsetStep (fl : FlagR) (a : Arg) : FlagR :=
  if a.err.isSome then
    match unsetFlagValue fl.valueType with
    | .ok z => { fl with value := z }
    | .error e => { fl with err := some e }
  else fl

/-- The per-flag value-source pass of flagset.go lines 116-144: when the
flag was resolved by argument, roll back the field for every erroring
occurrence; otherwise fall back to the environment variable, then to the
non-empty declared default.  `envf` models `os.LookupEnv`. -/
def applyEnvDefault (envf : String → Option String) (fl : FlagR) (margs : List Arg) : FlagR :=
  if fl.valueBy == "arg" then
    margs.foldl unsetStep fl
  else
    match envf fl.env with
    | some ev =>
      let fl := { fl with valueBy := "env" }
      match setFlagValue fl.valueType fl.value ev with
      | .ok gv => { fl with value := gv }
      | .error e => { fl with err := some e }
    | none =>
      if fl.valueDefault ≠ "" then
        let fl := { fl with valueBy := "default" }
        match setFlagValue fl.valueType fl.value fl.valueDefault with
        | .ok gv => { fl with value := gv }
        | .error e => { fl with err := some e }
      else fl

/-- Resolution of a single declared `arg`-kind flag against a raw token
list, for a flag set with no declared commands: segmentation
(`flagSet.parseArgs`), binding (lines 594-606), the argument pass
(lines 59-113) and the value-source pass (lines 116-144) of `New`.
Returns the resolved flag and its matched occurrences. -/
def resolveTokens (envf : String → Option String) (fl : FlagR) (toks : List String) :
    FlagR × List Arg :=
  let margs := matchedArgs fl.short fl.long (parseTokens toks)
  let p := resolveArgs fl margs
  (applyEnvDefault envf p.1 p.2, p.2)

/-- The flag's contribution to `FlagSet.Errors` (flagset.go lines 282-295):
its own error followed by its occurrences' errors. -/
def flagErrors (fl : FlagR) (margs : List Arg) : List String :=
  (match fl.err with | some e => [e] | none => []) ++ margs.filterMap (·.err)

/-- Message of a missing required argument (flagset.go lines 172-182): the
short form is preferred over the long form, and the parent command name is
appended when present. -/
def requiredMsg (fl : FlagR) (command : String) : String :=
  let arg := if fl.short ≠ "" then "-" ++ fl.short
             else if fl.long ≠ "" then "--" ++ fl.long else ""
  let m := "argument " ++ arg ++ " is required"
  if command ≠ "" then m ++ " for " ++ command ++ " command" else m

/-- The required check for one flag (one iteration of flagset.go
lines 147-186).  `flArgs` is the flag's matched-occurrence list; `parent` is
the looked-up parent flag together with its own matched-occurrence list
(`none` both when the flag is top-level and when the parent lookup fails,
which the source treats identically: no command name and no skip). -/
def requiredCheck (fl : FlagR) (flArgs : List Arg) (parent : Option (FlagR × List Arg)) :
    FlagR :=
  if !fl.required then fl
  else if !flArgs.isEmpty then fl
  else if fl.kind == "command" then
    { fl with err := some ("command " ++ fl.command ++ " is required") }
  else if fl.kind == "arg" then
    match parent with
    | some pp =>
      if pp.2.isEmpty then fl
      else { fl with err := some (requiredMsg fl pp.1.command) }
    | none => { fl with err := some (requiredMsg fl "") }
  else fl

/-- A declared flag as seen by `checkFlags` (flagset.go lines 928-984): its
field name, the three declared names, the declared value type, and the
parent-scope key (the source uses `fmt.Sprint(v.parentIndex)` as the scope
identifier). -/
structure DeclFlag where
  name : String := ""
  short : String := ""
  long : String := ""
  command : String := ""
  valueType : String
  parent : String := ""
  deriving DecidableEq, Repr

/-- Registry entry: the owning field name and its parent-scope key. -/
abbrev RegEntry := String × String

/-- Go map lookup on the registries (latest registration wins). -/
def regGet (m : List (String × RegEntry)) (k : String) : Option RegEntry :=
  (m.find? (fun p => p.1 == k)).map (·.2)

/-- Go map insertion on the registries. -/
def regPut (m : List (String × RegEntry)) (k : String) (v : RegEntry) :
    List (String × RegEntry) :=
  (k, v) :: m

/-- One name registration of `checkFlags` (the short block of flagset.go
lines 944-954, and — with `lenCheck := false` — the long and command blocks
of lines 955-968): an already-registered holder of the same name in the
same scope yields the "already defined" error; otherwise an over-long short
name yields the length error; otherwise the name is registered. -/
def registerName (lenCheck : Bool) (label : String) (m : List (String × RegEntry))
    (key fname parent : String) : List (String × RegEntry) × List String :=
  if key == "" then (m, [])
  else
    match regGet m key with
    | some e =>
      if e.2 == parent then
        (m, [label ++ " " ++ key ++ " in " ++ fname ++ " field is already defined in " ++
             e.1 ++ " field"])
      else if lenCheck && decide (key.length > 1) then
        (m, [label ++ " " ++ key ++ " in " ++ fname ++ " field must be one character long"])
      else (regPut m key (fname, parent), [])
    | none =>
      if lenCheck && decide (key.length > 1) then
        (m, [label ++ " " ++ key ++ " in " ++ fname ++ " field must be one character long"])
      else (regPut m key (fname, parent), [])

/-- State of the `checkFlags` scan: the three registries and the error
accumulator. -/
structure CFState where
  shorts : List (String × RegEntry) := []
  longs : List (String × RegEntry) := []
  commands : List (String × RegEntry) := []
  errs : List String := []
  deriving Repr

/-- One iteration of the `checkFlags` loop (flagset.go lines 940-981):
short, long and command registration followed by the supported-type check,
with the errors appended in that order. -/
def checkFlagStep (st : CFState) (v : DeclFlag) : CFState :=
  let ps := registerName true "short argument" st.shorts v.short v.name v.parent
  let pl := registerName false "long argument" st.longs v.long v.name v.parent
  let pc := registerName false "command" st.commands v.command v.name v.parent
  let et := if supportedFlagTypes.contains v.valueType then []
            else ["invalid type " ++ v.valueType ++ ". Supported types: " ++
                  String.intercalate " " supportedFlagTypes]
  { shorts := ps.1, longs := pl.1, commands := pc.1,
    errs := st.errs ++ ps.2 ++ pl.2 ++ pc.2 ++ et }

/-- Model of `checkFlags` (flagset.go lines 928-984).  `New` aborts
construction exactly when this list is non-empty (lines 49-55 via
`structToFlags`). -/
def checkFlags (flags : List DeclFlag) : List String :=
  (flags.foldl checkFlagStep {}).errs

/-- A declared command's located occurrence (struct `Command`; `id` equals
the list position, `parentID` is the parent's list position or `-1`, and the
flag-set bookkeeping field `flagID` is dropped). -/
structure Command where
  command : String
  parentID : Int := -1
  argID : Int := -1
  indexFrom : Int := -1
  indexTo : Int := -1
  deriving DecidableEq, Repr

/-- The acceptance test for a nested command at token index `argIndex`
(flagset.go lines 367-375): some declared command already has a located
occurrence at a strictly earlier index. -/
def anyLocatedBefore (cmds : List Command) (argIndex : Nat) : Bool :=
  cmds.any fun p => p.argID != -1 && p.argID < (argIndex : Int)

/-- Range closing of the declared command immediately preceding a newly
located one (flagset.go lines 385-390): when the command at position `i - 1`
is located, set its `indexTo` to the current token index. -/
def closePrev (cmds : List Command) (i : Nat) (argIndex : Nat) : List Command :=
  if 1 ≤ i then
    match cmds[i - 1]? with
    | some prev =>
      if prev.argID != -1 then cmds.set (i - 1) { prev with indexTo := (argIndex : Int) }
      else cmds
    | none => cmds
  else cmds

/-- One token step of the command-location scan (flagset.go lines 361-394):
find the first not-yet-located declared command whose name matches the
token and whose scope test passes, record its occurrence, and close the
immediately preceding declared command's range when that one is located. -/
def locateStep (cmds : List Command) (argIndex : Nat) (argVal : String) : List Command :=
  match cmds.findIdx? (fun c =>
      c.argID == -1 && c.command == argVal &&
        (c.parentID == -1 || anyLocatedBefore cmds argIndex)) with
  | none => cmds
  | some i =>
    match cmds[i]? with
    | none => cmds
    | some c =>
      closePrev (cmds.set i { c with indexFrom := (argIndex : Int), argID := (argIndex : Int) })
        i argIndex

/-- The command-location scan over the raw token list
(flagset.go lines 358-395). -/
def locateCommands (cmds : List Command) (argsRaw : List String) : List Command :=
  argsRaw.enum.foldl (fun cs p => locateStep cs p.1 p.2) cmds

/-- First `indexFrom` of a located command at position `j` or later
(flagset.go lines 412-419). -/
def findNextFrom (cmds : List Command) (j : Nat) : Option Int :=
  ((cmds.drop j).find? (fun c => c.indexFrom != -1)).map (·.indexFrom)

/-- One step of the range-closing pass (flagset.go lines 398-425) for the
command at position `i`. -/
def closeRangesStep (rawLen : Nat) (cmds : List Command) (i : Nat) : List Command :=
  match cmds[i]? with
  | none => cmds
  | some c =>
    if c.argID == -1 || c.indexTo != -1 then cmds
    else if i + 1 = cmds.length then cmds.set i { c with indexTo := (rawLen : Int) }
    else
      match findNextFrom cmds (i + 1) with
      | some f => cmds.set i { c with indexTo := f }
      | none => cmds.set i { c with indexTo := (rawLen : Int) }

/-- The range-closing pass over all declared commands. -/
def closeRanges (rawLen : Nat) (cmds : List Command) : List Command :=
  (List.range cmds.length).foldl (closeRangesStep rawLen) cmds

/-- Model of `FlagSet.parseCommands` (flagset.go lines 324-438) given the
initial command records built from the declared command flags in
declaration order (lines 329-356: all `argID`/`indexFrom`/`indexTo` start
at `-1`). -/
def parseCommands (cmds : List Command) (argsRaw : List String) : List Command :=
  closeRanges argsRaw.length (locateCommands cmds argsRaw)

/-- The seven scalar (non-list) declared value types. -/
def scalarKinds : List String :=
  ["bool", "float64", "int", "int64", "uint", "uint64", "string"]

/-- The seven list declared value types. -/
def listKinds : List String :=
  ["[]bool", "[]float64", "[]int", "[]int64", "[]uint", "[]uint64", "[]string"]

/-- Successful scalar coercion of one value string, matching the scalar
cases of `setFlag` (`none` when `setFlag` would fail or — for an empty
numeric value — skip the write). -/
def parseScalar (t v : String) : Option GoScalar :=
  match t with
  | "bool" => if v = "true" then some (.b true)
              else if v = "false" then some (.b false) else none
  | "float64" => if v = "" then none else (goParseFloat v).map .f
  | "int" => if v = "" then none else (goParseInt v 64).map .i
  | "int64" => if v = "" then none else (goParseInt v 64).map .i
  | "uint" => if v = "" then none else (goParseUint v 64).map .u
  | "uint64" => if v = "" then none else (goParseUint v 64).map .u
  | "string" => some (.s v)
  | _ => none

/-- Successful element coercion of one value string for a list type,
matching the list cases of `setFlag` (`none` when `setFlag` would fail or —
for an empty numeric value — append nothing). -/
def parseListElem (t v : String) : Option GoScalar :=
  match t with
  | "[]bool" => if v = "true" then some (.b true)
                else if v = "false" then some (.b false) else none
  | "[]float64" => if v = "" then none else (goParseFloat v).map .f
  | "[]int" => if v = "" then none else (goParseInt v 32).map .i
  | "[]int64" => if v = "" then none else (goParseInt v 64).map .i
  | "[]uint" => if v = "" then none else (goParseUint v 32).map .u
  | "[]uint64" => if v = "" then none else (goParseUint v 64).map .u
  | "[]string" => some (.s v)
  | _ => none

/-- The piece strings one matched value contributes for a list flag: split
on the declared delimiter when one is present, trim each piece and drop the
empty ones (flagset.go lines 95-106; without a delimiter the value is a
single piece). -/
def listPiecesOf (delim v : String) : List String :=
  if delim ≠ "" then ((goSplit v delim).map goTrimSpace).filter (fun p => !(p == ""))
  else [v]

/-- The elements one matched occurrence contributes to a list flag's
resolved sequence. -/
def contribElems (t delim : String) (a : Arg) : List GoScalar :=
  (listPiecesOf delim (effVal t a)).filterMap (parseListElem t)

/-- A plain flag name: nonempty, with no whitespace, dash, `=` or quote
characters.  Used to quantify over well-formed declared names in the
segmentation theorems. -/
def plainName (n : String) : Prop :=
  n.toList ≠ [] ∧ ∀ c ∈ n.toList, ¬c.isWhitespace ∧ c ≠ '-' ∧ c ≠ '=' ∧ c ≠ dq ∧ c ≠ sq

instance : DecidablePred plainName := fun n => by unfold plainName; infer_instance

/-- A value string containing no quote characters. -/
def noQuotes (v : String) : Prop := ∀ c ∈ v.toList, c ≠ dq ∧ c ≠ sq

instance : DecidablePred noQuotes := fun v => by unfold noQuotes; infer_instance

/-- Stripping of exactly one matching pair of leading/trailing quotes,
written from the claim's own words (for comparison with the source's
`strings.Trim`-based `stripQuotes`). -/
def specOnePairStrip (v : String) : String :=
  let l := v.toList
  if 2 ≤ l.length ∧ ((l.headD ' ' = dq ∧ l.getLastD ' ' = dq) ∨
      (l.headD ' ' = sq ∧ l.getLastD ' ' = sq)) then
    String.mk (l.drop 1 |>.dropLast)
  else v

/-! Helper lemmas about the resolution phases. -/

theorem applyArgStep_of_not_arg (fl : FlagR) (a : Arg) (h : ¬a.kind = "arg") :
    applyArgStep fl a = (fl, a) := by
  unfold applyArgStep
  simp [h]

theorem delimStep_fst_shape (st : FlagR × Arg) (v : String) :
    ∃ gv, (delimStep st v).1 = { st.1 with value := gv } := by
  unfold delimStep
  dsimp only
  split
  · exact ⟨st.1.value, rfl⟩
  · split
    · exact ⟨_, rfl⟩
    · exact ⟨st.1.value, rfl⟩

theorem foldl_delimStep_fst_shape (l : List String) (st : FlagR × Arg) :
    ∃ gv, (l.foldl delimStep st).1 = { st.1 with value := gv } := by
  induction l generalizing st with
  | nil => exact ⟨st.1.value, rfl⟩
  | cons v vs ih =>
    obtain ⟨g1, h1⟩ := delimStep_fst_shape st v
    obtain ⟨g2, h2⟩ := ih (delimStep st v)
    refine ⟨g2, ?_⟩
    rw [List.foldl_cons, h2, h1]

theorem applyArgValue_fst_shape (fl : FlagR) (a : Arg) :
    ∃ gv, (applyArgValue fl a).1 = { fl with value := gv } := by
  unfold applyArgValue
  split
  · exact ⟨fl.value, rfl⟩
  · split
    · obtain ⟨gv, hg⟩ := foldl_delimStep_fst_shape _ _
      exact ⟨gv, hg⟩
    · split
      · exact ⟨_, rfl⟩
      · exact ⟨fl.value, rfl⟩

theorem applyArgStep_fst_shape (fl : FlagR) (a : Arg) (h : a.kind = "arg") :
    ∃ gv, (applyArgStep fl a).1 = { fl with valueBy := "arg", value := gv } := by
  unfold applyArgStep
  simp only [h, beq_self_eq_true, Bool.not_true, Bool.false_eq_true, if_false]
  exact applyArgValue_fst_shape _ _

theorem applyArgStep_fst_valueBy (fl : FlagR) (a : Arg) :
    (applyArgStep fl a).1.valueBy = if a.kind = "arg" then "arg" else fl.valueBy := by
  by_cases h : a.kind = "arg"
  · obtain ⟨gv, hg⟩ := applyArgStep_fst_shape fl a h
    simp [h, hg]
  · simp [h, applyArgStep_of_not_arg fl a h]

theorem applyArgStep_fst_stable (fl : FlagR) (a : Arg) :
    (applyArgStep fl a).1.valueType = fl.valueType ∧
    (applyArgStep fl a).1.delimiter = fl.delimiter ∧
    (applyArgStep fl a).1.err = fl.err ∧
    (applyArgStep fl a).1.valueDefault = fl.valueDefault ∧
    (applyArgStep fl a).1.env = fl.env := by
  by_cases h : a.kind = "arg"
  · obtain ⟨gv, hg⟩ := applyArgStep_fst_shape fl a h
    simp [hg]
  · simp [applyArgStep_of_not_arg fl a h]

theorem resolveArgs_of_no_arg (fl : FlagR) (margs : List Arg)
    (h : ∀ a ∈ margs, ¬a.kind = "arg") :
    resolveArgs fl margs = (fl, margs) := by
  induction margs with
  | nil => rfl
  | cons a as ih =>
    have ha := applyArgStep_of_not_arg fl a (h a (by simp))
    unfold resolveArgs
    rw [ha]
    dsimp only
    rw [ih fun b hb => h b (by simp [hb])]

theorem resolveArgs_fst_valueBy (fl : FlagR) (margs : List Arg) :
    (resolveArgs fl margs).1.valueBy =
      if margs.any (fun a => a.kind == "arg") then "arg" else fl.valueBy := by
  induction margs generalizing fl with
  | nil => simp [resolveArgs]
  | cons a as ih =>
    unfold resolveArgs
    dsimp only
    rw [ih]
    rw [applyArgStep_fst_valueBy]
    by_cases h : a.kind = "arg" <;> by_cases h2 : as.any (fun a => a.kind == "arg") <;>
      simp [h, h2]

theorem resolveArgs_fst_stable (fl : FlagR) (margs : List Arg) :
    (resolveArgs fl margs).1.valueType = fl.valueType ∧
    (resolveArgs fl margs).1.delimiter = fl.delimiter ∧
    (resolveArgs fl margs).1.err = fl.err ∧
    (resolveArgs fl margs).1.valueDefault = fl.valueDefault ∧
    (resolveArgs fl margs).1.env = fl.env := by
  induction margs generalizing fl with
  | nil => simp [resolveArgs]
  | cons a as ih =>
    unfold resolveArgs
    dsimp only
    obtain ⟨h1, h2, h3, h4, h5⟩ := ih (applyArgStep fl a).1
    obtain ⟨g1, g2, g3, g4, g5⟩ := applyArgStep_fst_stable fl a
    exact ⟨h1.trans g1, h2.trans g2, h3.trans g3, h4.trans g4, h5.trans g5⟩

theorem unsetStep_valueDefault_comm (fl : FlagR) (a : Arg) (d : String) :
    unsetStep { fl with valueDefault := d } a = { unsetStep fl a with valueDefault := d } := by
  unfold unsetStep
  dsimp only
  split
  · split <;> rfl
  · rfl

theorem foldl_unsetStep_valueDefault_comm (margs : List Arg) (fl : FlagR) (d : String) :
    margs.foldl unsetStep { fl with valueDefault := d } =
      { margs.foldl unsetStep fl with valueDefault := d } := by
  induction margs generalizing fl with
  | nil => rfl
  | cons a as ih =>
    rw [List.foldl_cons, List.foldl_cons, unsetStep_valueDefault_comm, ih]

theorem unsetStep_valueBy (fl : FlagR) (a : Arg) :
    (unsetStep fl a).valueBy = fl.valueBy := by
  unfold unsetStep
  split
  · split <;> rfl
  · rfl

theorem foldl_unsetStep_valueBy (margs : List Arg) (fl : FlagR) :
    (margs.foldl unsetStep fl).valueBy = fl.valueBy := by
  induction margs generalizing fl with
  | nil => rfl
  | cons a as ih => rw [List.foldl_cons, ih, unsetStep_valueBy]

theorem applyEnvDefault_of_arg (envf : String → Option String) (fl : FlagR)
    (margs : List Arg) (h : fl.valueBy = "arg") :
    applyEnvDefault envf fl margs = margs.foldl unsetStep fl := by
  unfold applyEnvDefault
  simp [h]

/-- C1: for every declared arg-kind flag, exactly one of three sources
supplies its final value, checked in this order: if at least one matching
arg-kind token exists (even one that acquires an error), the flag's
resolution source is `arg` and neither the environment function nor the
declared default influences the outcome; otherwise, if the environment
variable of the declared name is set, its value is used with source `env`;
otherwise, if the declared default string is non-empty, it is used with
source `default`; otherwise the flag is left untouched.  `margs` is the
flag's matched-occurrence list produced by binding, and the flag enters
resolution with an unset `valueBy` marker. -/
theorem value_source_trichotomy (envf : String → Option String) (fl : FlagR)
    (margs : List Arg) (h0 : fl.valueBy = "") :
    ((∃ a ∈ margs, a.kind = "arg") →
      (applyEnvDefault envf (resolveArgs fl margs).1 (resolveArgs fl margs).2).valueBy = "arg" ∧
      ∀ (envf2 : String → Option String) (d : String),
        applyEnvDefault envf2 { (resolveArgs fl margs).1 with valueDefault := d }
            (resolveArgs fl margs).2 =
          { applyEnvDefault envf (resolveArgs fl margs).1 (resolveArgs fl margs).2 with
              valueDefault := d }) ∧
    ((∀ a ∈ margs, ¬a.kind = "arg") →
      resolveArgs fl margs = (fl, margs) ∧
      (∀ ev, envf fl.env = some ev →
        (applyEnvDefault envf fl margs).valueBy = "env" ∧
        (∀ gv, setFlagValue fl.valueType fl.value ev = .ok gv →
          (applyEnvDefault envf fl margs).value = gv ∧
          (applyEnvDefault envf fl margs).err = fl.err) ∧
        (∀ e, setFlagValue fl.valueType fl.value ev = .error e →
          (applyEnvDefault envf fl margs).value = fl.value ∧
          (applyEnvDefault envf fl margs).err = some e)) ∧
      (envf fl.env = none → ¬fl.valueDefault = "" →
        (applyEnvDefault envf fl margs).valueBy = "default" ∧
        (∀ gv, setFlagValue fl.valueType fl.value fl.valueDefault = .ok gv →
          (applyEnvDefault envf fl margs).value = gv ∧
          (applyEnvDefault envf fl margs).err = fl.err) ∧
        (∀ e, setFlagValue fl.valueType fl.value fl.valueDefault = .error e →
          (applyEnvDefault envf fl margs).value = fl.value ∧
          (applyEnvDefault envf fl margs).err = some e)) ∧
      (envf fl.env = none → fl.valueDefault = "" →
        applyEnvDefault envf fl margs = fl)) := by
  constructor
  · intro hex
    have hany : margs.any (fun a => a.kind == "arg") = true := by
      obtain ⟨a, ha, hk⟩ := hex
      exact List.any_eq_true.mpr ⟨a, ha, by simp [hk]⟩
    have hvb : (resolveArgs fl margs).1.valueBy = "arg" := by
      rw [resolveArgs_fst_valueBy, hany]
      simp
    constructor
    · rw [applyEnvDefault_of_arg envf _ _ hvb, foldl_unsetStep_valueBy]
      exact hvb
    · intro envf2 d
      have hvb2 : ({ (resolveArgs fl margs).1 with valueDefault := d } : FlagR).valueBy = "arg" := hvb
      rw [applyEnvDefault_of_arg envf2 _ _ hvb2, applyEnvDefault_of_arg envf _ _ hvb,
        foldl_unsetStep_valueDefault_comm]
  · intro hno
    refine ⟨resolveArgs_of_no_arg fl margs hno, ?_, ?_, ?_⟩
    · intro ev henv
      unfold applyEnvDefault
      simp only [h0, henv]
      refine ⟨?_, ?_, ?_⟩
      · cases hsf : setFlagValue fl.valueType fl.value ev <;> simp [hsf]
      · intro gv hsf
        simp [hsf]
      · intro e hsf
        simp [hsf]
    · intro henv hd
      unfold applyEnvDefault
      simp only [h0, henv, hd]
      refine ⟨?_, ?_, ?_⟩
      · cases hsf : setFlagValue fl.valueType fl.value fl.valueDefault <;> simp [hsf, hd]
      · intro gv hsf
        simp [hsf, hd]
      · intro e hsf
        simp [hsf, hd]
    · intro henv hd
      unfold applyEnvDefault
      simp [h0, henv, hd]

/-- Witness for `value_source_trichotomy` at a concrete input: an int flag
with one matched argument token resolves by argument, and with no matched
tokens and a set environment variable it resolves by environment. -/
theorem value_source_trichotomy_witness :
    (applyEnvDefault (fun _ => some "7")
        (resolveArgs { valueType := "int", valueBy := "", value := zeroValue "int" }
          [{ arg := "-i=3", name := "i", value := "3", dash := "-", hasEq := true,
             kind := "arg" }]).1
        (resolveArgs { valueType := "int", valueBy := "", value := zeroValue "int" }
          [{ arg := "-i=3", name := "i", value := "3", dash := "-", hasEq := true,
             kind := "arg" }]).2).valueBy = "arg" ∧
    (applyEnvDefault (fun _ => some "7")
        { valueType := "int", valueBy := "", value := zeroValue "int" } []).valueBy = "env" := by
  constructor
  · exact ((value_source_trichotomy (fun _ => some "7")
      { valueType := "int", valueBy := "", value := zeroValue "int" }
      [{ arg := "-i=3", name := "i", value := "3", dash := "-", hasEq := true,
         kind := "arg" }] rfl).1
      ⟨{ arg := "-i=3", name := "i", value := "3", dash := "-", hasEq := true,
         kind := "arg" }, by simp, rfl⟩).1
  · exact (((value_source_trichotomy (fun _ => some "7")
      { valueType := "int", valueBy := "", value := zeroValue "int" } [] rfl).2
      (by simp)).2.1 "7" rfl).1

/-- The ten numeric declared value types (scalar and list forms). -/
def numericKinds : List String :=
  ["float64", "int", "int64", "uint", "uint64",
   "[]float64", "[]int", "[]int64", "[]uint", "[]uint64"]

/-- C10: for every flag of a numeric type, `setFlag` called with the empty
string returns no error and writes nothing; consequently, when such a flag
has no matching argument and its declared environment variable is set to
the empty string, the flag is resolved by `env` with the field left at its
zero value, no error recorded, and the declared default never consulted. -/
theorem numeric_empty_env_noop (envf : String → Option String) (fl : FlagR)
    (toks : List String) (ht : fl.valueType ∈ numericKinds)
    (h0 : fl.valueBy = "") (hv : fl.value = zeroValue fl.valueType) (he : fl.err = none)
    (hm : matchedArgs fl.short fl.long (parseTokens toks) = [])
    (henv : envf fl.env = some "") :
    (∀ cur, setFlagValue fl.valueType cur "" = .ok cur) ∧
    (resolveTokens envf fl toks).1.valueBy = "env" ∧
    (resolveTokens envf fl toks).1.value = zeroValue fl.valueType ∧
    (resolveTokens envf fl toks).1.err = none ∧
    ∀ d, (resolveTokens envf { fl with valueDefault := d } toks).1 =
        { (resolveTokens envf fl toks).1 with valueDefault := d } := by
  have hset : ∀ cur, setFlagValue fl.valueType cur "" = .ok cur := by
    intro cur
    simp only [numericKinds, List.mem_cons, List.not_mem_nil, or_false] at ht
    rcases ht with h | h | h | h | h | h | h | h | h | h <;> rw [h] <;> rfl
  have henvres : ∀ g : FlagR, g.valueBy = "" → g.valueType = fl.valueType →
      envf g.env = some "" → applyEnvDefault envf g [] = { g with valueBy := "env" } := by
    intro g hg ht2 he2
    have h2 : setFlagValue g.valueType g.value "" = .ok g.value := by
      rw [ht2]
      exact hset g.value
    unfold applyEnvDefault
    simp [hg, he2, h2]
  have hres : resolveTokens envf fl toks = (applyEnvDefault envf fl [], []) := by
    simp only [resolveTokens, hm]
    rfl
  have hres2 : ∀ d, resolveTokens envf { fl with valueDefault := d } toks =
      (applyEnvDefault envf { fl with valueDefault := d } [], []) := by
    intro d
    simp only [resolveTokens]
    simp only [hm]
    rfl
  refine ⟨hset, ?_, ?_, ?_, ?_⟩
  · rw [hres, henvres fl h0 rfl henv]
  · rw [hres, henvres fl h0 rfl henv]
    exact hv
  · rw [hres, henvres fl h0 rfl henv]
    exact he
  · intro d
    rw [hres2 d, hres]
    show applyEnvDefault envf { fl with valueDefault := d } [] =
      { applyEnvDefault envf fl [] with valueDefault := d }
    rw [henvres { fl with valueDefault := d } h0 rfl henv, henvres fl h0 rfl henv]

/-- Witness for `numeric_empty_env_noop`: an int flag with env variable set
to the empty string resolves by `env`, stays at zero, and records no error. -/
theorem numeric_empty_env_noop_witness :
    (resolveTokens (fun _ => some "")
        { valueType := "int", env := "N", value := zeroValue "int" } []).1.valueBy = "env" ∧
    (resolveTokens (fun _ => some "")
        { valueType := "int", env := "N", value := zeroValue "int" } []).1.value =
      GoValue.scalar (GoScalar.i 0) ∧
    (resolveTokens (fun _ => some "")
        { valueType := "int", env := "N", value := zeroValue "int" } []).1.err = none := by
  have h := numeric_empty_env_noop (fun _ => some "")
    { valueType := "int", env := "N", value := zeroValue "int" } []
    (by decide) rfl rfl rfl rfl rfl
  exact ⟨h.2.1, h.2.2.1, h.2.2.2.1⟩

/-! Invariants of argument segmentation. -/

theorem parseArgsLoop_inv (l : List Arg) :
    (∀ a ∈ l, a.err = none ∧ a.kind = "arg" ∧ a.name = "") →
    ∀ b ∈ parseArgsLoop l, b.err = none ∧ (b.kind = "arg" ∨ b.name = "") := by
  induction l using parseArgsLoop.induct with
  | case1 =>
    intro _ b hb
    simp [parseArgsLoop] at hb
  | case2 a ha =>
    intro h b hb
    obtain ⟨-, hk, -⟩ := h a (by simp)
    simp [hk] at ha
  | case3 a ha b0 hd =>
    intro h b hb
    obtain ⟨he, hk, -⟩ := h a (by simp)
    have hd2 : ((classifyArg a).dash == "") = true := hd
    simp only [parseArgsLoop] at hb
    rw [if_neg ha, if_pos hd2] at hb
    simp only [List.mem_singleton] at hb
    subst hb
    exact ⟨he, Or.inl hk⟩
  | case4 a ha b0 hd hq =>
    intro h b hb
    obtain ⟨he, hk, -⟩ := h a (by simp)
    have hd2 : ¬((classifyArg a).dash == "") = true := hd
    have hq2 : eqBeforeQuote (classifyArg a).name = true := hq
    simp only [parseArgsLoop] at hb
    rw [if_neg ha, if_neg hd2, if_pos hq2] at hb
    simp only [List.mem_singleton] at hb
    subst hb
    exact ⟨he, Or.inl hk⟩
  | case5 a ha b0 hd hq =>
    intro h b hb
    obtain ⟨he, hk, -⟩ := h a (by simp)
    have hd2 : ¬((classifyArg a).dash == "") = true := hd
    have hq2 : ¬eqBeforeQuote (classifyArg a).name = true := hq
    simp only [parseArgsLoop] at hb
    rw [if_neg ha, if_neg hd2, if_neg hq2] at hb
    simp only [List.mem_singleton] at hb
    subst hb
    exact ⟨he, Or.inl hk⟩
  | case6 a next rest2 ha ih =>
    intro h b hb
    obtain ⟨-, hk, -⟩ := h a (by simp)
    simp [hk] at ha
  | case7 a next rest2 ha b0 hd ih =>
    intro h b hb
    obtain ⟨he, hk, -⟩ := h a (by simp)
    have hd2 : ((classifyArg a).dash == "") = true := hd
    simp only [parseArgsLoop] at hb
    rw [if_neg ha, if_pos hd2] at hb
    simp only [List.mem_cons] at hb
    rcases hb with hb | hb
    · subst hb
      exact ⟨he, Or.inl hk⟩
    · exact ih (fun a2 ha2 => h a2 (by simp [ha2])) b hb
  | case8 a next rest2 ha b0 hd hq ih =>
    intro h b hb
    obtain ⟨he, hk, -⟩ := h a (by simp)
    have hd2 : ¬((classifyArg a).dash == "") = true := hd
    have hq2 : eqBeforeQuote (classifyArg a).name = true := hq
    simp only [parseArgsLoop] at hb
    rw [if_neg ha, if_neg hd2, if_pos hq2] at hb
    simp only [List.mem_cons] at hb
    rcases hb with hb | hb
    · subst hb
      exact ⟨he, Or.inl hk⟩
    · exact ih (fun a2 ha2 => h a2 (by simp [ha2])) b hb
  | case9 a next rest2 ha b0 hd hq hn ih =>
    intro h b hb
    obtain ⟨he, hk, -⟩ := h a (by simp)
    obtain ⟨hne, -, hnn⟩ := h next (by simp)
    have hd2 : ¬((classifyArg a).dash == "") = true := hd
    have hq2 : ¬eqBeforeQuote (classifyArg a).name = true := hq
    simp only [parseArgsLoop] at hb
    rw [if_neg ha, if_neg hd2, if_neg hq2, if_pos hn] at hb
    simp only [List.mem_cons] at hb
    rcases hb with hb | hb | hb
    · subst hb
      exact ⟨he, Or.inl hk⟩
    · subst hb
      exact ⟨hne, Or.inr hnn⟩
    · exact ih (fun a2 ha2 => h a2 (by simp [ha2])) b hb
  | case10 a next rest2 ha b0 hd hq hn ih =>
    intro h b hb
    obtain ⟨he, hk, -⟩ := h a (by simp)
    have hd2 : ¬((classifyArg a).dash == "") = true := hd
    have hq2 : ¬eqBeforeQuote (classifyArg a).name = true := hq
    simp only [parseArgsLoop] at hb
    rw [if_neg ha, if_neg hd2, if_neg hq2, if_neg hn] at hb
    simp only [List.mem_cons] at hb
    rcases hb with hb | hb
    · subst hb
      exact ⟨he, Or.inl hk⟩
    · exact ih (fun a2 ha2 => h a2 (by simp [ha2])) b hb

theorem matchedArgs_inv (short long : String) (toks : List String) :
    ∀ b ∈ matchedArgs short long (parseTokens toks), b.err = none ∧ b.kind = "arg" := by
  intro b hb
  unfold matchedArgs at hb
  rw [List.mem_filter] at hb
  obtain ⟨hmem, hmatch⟩ := hb
  have hinv := parseArgsLoop_inv (toks.map mkArg)
    (by intro a ha
        simp only [List.mem_map] at ha
        obtain ⟨s, -, hs⟩ := ha
        subst hs
        exact ⟨rfl, rfl, rfl⟩) b hmem
  refine ⟨hinv.1, ?_⟩
  rcases hinv.2 with hk | hn
  · exact hk
  · unfold matchesFlag at hmatch
    rw [hn] at hmatch
    simp at hmatch

theorem resolveArgs_snd_length (fl : FlagR) (margs : List Arg) :
    (resolveArgs fl margs).2.length = margs.length := by
  induction margs generalizing fl with
  | nil => rfl
  | cons a as ih =>
    unfold resolveArgs
    simp [ih]

theorem unsetFlagValue_zero (t : String) (ht : t ∈ scalarKinds ∨ t ∈ listKinds) :
    unsetFlagValue t = .ok (zeroValue t) := by
  rcases ht with ht | ht <;>
    simp only [scalarKinds, listKinds, List.mem_cons, List.not_mem_nil, or_false] at ht
  · rcases ht with h | h | h | h | h | h | h <;> rw [h] <;> rfl
  · rcases ht with h | h | h | h | h | h | h <;> rw [h] <;> rfl

/-- C5: for every flag resolved by argument whose only matching argument
token carries an error, the flag's destination field is rolled back to its
zero value, while the per-token error is retained and reported among the
flag's errors. -/
theorem arg_error_rollback (envf : String → Option String) (fl : FlagR)
    (toks : List String) (a : Arg) (e : String)
    (ht : fl.valueType ∈ scalarKinds ∨ fl.valueType ∈ listKinds)
    (hm : (resolveTokens envf fl toks).2 = [a])
    (he : a.err = some e) :
    (resolveTokens envf fl toks).1.value = zeroValue fl.valueType ∧
    e ∈ flagErrors (resolveTokens envf fl toks).1 (resolveTokens envf fl toks).2 := by
  have hmargs : (resolveTokens envf fl toks).2 =
      (resolveArgs fl (matchedArgs fl.short fl.long (parseTokens toks))).2 := rfl
  rcases hm0 : matchedArgs fl.short fl.long (parseTokens toks) with _ | ⟨a0, as⟩
  · rw [hmargs, hm0] at hm
    simp [resolveArgs] at hm
  · have h2 : (resolveArgs fl (a0 :: as)).2 = [a] := by
      rw [← hm0, ← hmargs]
      exact hm
    have has : as = [] := by
      have hlen := resolveArgs_snd_length fl (a0 :: as)
      rw [h2] at hlen
      cases as with
      | nil => rfl
      | cons x xs =>
        have h3 : (resolveArgs fl (a0 :: x :: xs)).2 =
            (applyArgStep fl a0).2 ::
              (applyArgStep (applyArgStep fl a0).1 x).2 ::
              (resolveArgs (applyArgStep (applyArgStep fl a0).1 x).1 xs).2 := rfl
        rw [h3] at h2
        simp at h2
    subst has
    have ha0 := matchedArgs_inv fl.short fl.long toks a0 (by rw [hm0]; simp)
    have hstep : (resolveTokens envf fl toks).2 = [(applyArgStep fl a0).2] := by
      rw [hmargs, hm0]
      rfl
    have ha : a = (applyArgStep fl a0).2 := by
      rw [hm] at hstep
      simpa using hstep
    have hfst : (resolveTokens envf fl toks).1 =
        applyEnvDefault envf (applyArgStep fl a0).1 [(applyArgStep fl a0).2] := by
      show applyEnvDefault envf
        (resolveArgs fl (matchedArgs fl.short fl.long (parseTokens toks))).1
        (resolveArgs fl (matchedArgs fl.short fl.long (parseTokens toks))).2 = _
      rw [hm0]
      unfold resolveArgs
      rfl
    obtain ⟨gv, hshape⟩ := applyArgStep_fst_shape fl a0 ha0.2
    have hvb : (applyArgStep fl a0).1.valueBy = "arg" := by rw [hshape]
    have hunset : applyEnvDefault envf (applyArgStep fl a0).1 [(applyArgStep fl a0).2] =
        unsetStep (applyArgStep fl a0).1 (applyArgStep fl a0).2 := by
      rw [applyEnvDefault_of_arg envf _ _ hvb]
      rfl
    have htyp : (applyArgStep fl a0).1.valueType = fl.valueType := by rw [hshape]
    have hz : unsetStep (applyArgStep fl a0).1 (applyArgStep fl a0).2 =
        { (applyArgStep fl a0).1 with value := zeroValue fl.valueType } := by
      unfold unsetStep
      rw [← ha, he]
      simp only [Option.isSome_some, if_true]
      rw [htyp, unsetFlagValue_zero fl.valueType ht]
    constructor
    · rw [hfst, hunset, hz]
    · rw [hm]
      simp [flagErrors, he]

/-- Witness for `arg_error_rollback`: an int flag whose single occurrence
`-i=x` fails to parse ends at zero with the parse error reported. -/
theorem arg_error_rollback_witness :
    (resolveTokens (fun _ => none) { valueType := "int", short := "i", value := zeroValue "int" }
        ["-i=x"]).1.value = zeroValue "int" ∧
    "failed to parse 'x' as int" ∈
      flagErrors
        (resolveTokens (fun _ => none) { valueType := "int", short := "i", value := zeroValue "int" }
          ["-i=x"]).1
        (resolveTokens (fun _ => none) { valueType := "int", short := "i", value := zeroValue "int" }
          ["-i=x"]).2 :=
  arg_error_rollback (fun _ => none)
    { valueType := "int", short := "i", value := zeroValue "int" } ["-i=x"]
    { arg := "-i=x", name := "i", value := "x", dash := "-", hasEq := true,
      kind := "arg", err := some "failed to parse 'x' as int" }
    "failed to parse 'x' as int" (by decide) (by decide) rfl

/-- C6: after resolution, for every flag marked required that has zero
matched occurrences: a command-kind flag records the error
"command `name` is required"; an arg-kind flag whose looked-up parent is an
unmatched command records no error; any other arg-kind flag records exactly
the error "argument `-s` is required" (the short form preferred, else
"--`l`"), suffixed with "for `cmd` command" when the parent command's name
is non-empty — exactly one such error per flag, in the flag's single error
slot. -/
theorem required_check_cases (fl : FlagR) (flArgs : List Arg)
    (parent : Option (FlagR × List Arg))
    (hreq : fl.required = true) (hzero : flArgs = []) :
    (fl.kind = "command" →
      (requiredCheck fl flArgs parent).err =
        some ("command " ++ fl.command ++ " is required")) ∧
    (fl.kind = "arg" →
      (∀ p pargs, parent = some (p, pargs) → pargs = [] →
        requiredCheck fl flArgs parent = fl) ∧
      (∀ p pargs, parent = some (p, pargs) → ¬pargs = [] →
        (requiredCheck fl flArgs parent).err = some (requiredMsg fl p.command)) ∧
      (parent = none →
        (requiredCheck fl flArgs parent).err = some (requiredMsg fl ""))) := by
  subst hzero
  constructor
  · intro hk
    unfold requiredCheck
    simp [hreq, hk]
  · intro hk
    have hkc : ¬fl.kind = "command" := by
      rw [hk]
      decide
    refine ⟨?_, ?_, ?_⟩
    · intro p pargs hp hpe
      subst hp hpe
      unfold requiredCheck
      simp [hreq, hk, hkc]
    · intro p pargs hp hpe
      subst hp
      unfold requiredCheck
      have : ¬pargs.isEmpty = true := by
        cases pargs
        · exact absurd rfl hpe
        · simp
      simp [hreq, hk, hkc, this]
    · intro hp
      subst hp
      unfold requiredCheck
      simp [hreq, hk, hkc]

/-- Witness for `required_check_cases`: a required command-kind flag with no
occurrences records the command-required error, and a required short flag
under a matched parent command records the suffixed argument error. -/
theorem required_check_cases_witness :
    (requiredCheck
        { valueType := "struct", kind := "command", command := "sub", required := true }
        [] none).err = some "command sub is required" ∧
    (requiredCheck
        { valueType := "int", kind := "arg", short := "f", required := true } []
        (some ({ valueType := "struct", kind := "command", command := "sub" },
          [{ arg := "sub", name := "sub", kind := "command" }]))).err =
      some "argument -f is required for sub command" := by
  constructor
  · exact (required_check_cases
      { valueType := "struct", kind := "command", command := "sub", required := true }
      [] none rfl rfl).1 rfl
  · exact ((required_check_cases
      { valueType := "int", kind := "arg", short := "f", required := true } []
      (some ({ valueType := "struct", kind := "command", command := "sub" },
        [{ arg := "sub", name := "sub", kind := "command" }])) rfl rfl).2 rfl).2.1
      { valueType := "struct", kind := "command", command := "sub" }
      [{ arg := "sub", name := "sub", kind := "command" }] rfl (by decide)

/-! Command segmentation invariants. -/

/-- The location-relevant projection of a command record: its occurrence
index and its parent id. -/
def prIds (c : Command) : Int × Int := (c.argID, c.parentID)

/-- The location invariant the scan actually maintains: every located
nested command has some declared command located at a strictly earlier
token index. -/
def locatedAfterSome (cmds : List Command) : Prop :=
  ∀ (k : Nat) (c : Command), cmds[k]? = some c → ¬c.parentID = -1 → ¬c.argID = -1 →
    ∃ (j : Nat) (p : Command), cmds[j]? = some p ∧ ¬p.argID = -1 ∧ p.argID < c.argID

theorem lt_length_of_getElem?_some {α : Type} {l : List α} {i : Nat} {a : α}
    (h : l[i]? = some a) : i < l.length := by
  by_contra h2
  push_neg at h2
  rw [List.getElem?_eq_none h2] at h
  simp at h

theorem closePrev_prIds (cmds : List Command) (i n : Nat) :
    ∀ k : Nat, ((closePrev cmds i n)[k]?).map prIds = (cmds[k]?).map prIds := by
  intro k
  unfold closePrev
  split
  · split
    · rename_i prev hprev
      split
      · by_cases hk : i - 1 = k
        · subst hk
          rw [List.getElem?_set_self (lt_length_of_getElem?_some hprev), hprev]
          rfl
        · rw [List.getElem?_set_ne hk]
      · rfl
    · rfl
  · rfl

theorem locatedAfterSome_of_prIds (cmds cmds2 : List Command)
    (hpr : ∀ k : Nat, (cmds2[k]?).map prIds = (cmds[k]?).map prIds)
    (h : locatedAfterSome cmds) : locatedAfterSome cmds2 := by
  intro k c hk hp ha
  have h1 := hpr k
  rw [hk] at h1
  cases hc2 : cmds[k]? with
  | none => rw [hc2] at h1; simp at h1
  | some c0 =>
    rw [hc2] at h1
    simp only [Option.map_some', Option.some.injEq] at h1
    have h1a : c.argID = c0.argID := congrArg Prod.fst h1
    have h1p : c.parentID = c0.parentID := congrArg Prod.snd h1
    have hp0 : ¬c0.parentID = -1 := by
      rw [← h1p]
      exact hp
    have ha0 : ¬c0.argID = -1 := by
      rw [← h1a]
      exact ha
    obtain ⟨j, p, hj, hpa, hplt⟩ := h k c0 hc2 hp0 ha0
    have h2 := hpr j
    rw [hj] at h2
    cases hj2 : cmds2[j]? with
    | none => rw [hj2] at h2; simp at h2
    | some p2 =>
      rw [hj2] at h2
      simp only [Option.map_some', Option.some.injEq] at h2
      have h2a : p2.argID = p.argID := congrArg Prod.fst h2
      refine ⟨j, p2, hj2, ?_, ?_⟩
      · rw [h2a]
        exact hpa
      · rw [h2a, h1a]
        exact hplt

theorem locateStep_ok (cmds : List Command) (idx : Nat) (v : String)
    (h : locatedAfterSome cmds) : locatedAfterSome (locateStep cmds idx v) := by
  cases hf : cmds.findIdx? (fun c =>
      c.argID == -1 && c.command == v &&
        (c.parentID == -1 || anyLocatedBefore cmds idx)) with
  | none =>
    have heq : locateStep cmds idx v = cmds := by
      unfold locateStep
      simp only [hf]
    rw [heq]
    exact h
  | some i =>
    cases hc : cmds[i]? with
    | none =>
      have heq : locateStep cmds idx v = cmds := by
        unfold locateStep
        simp only [hf, hc]
      rw [heq]
      exact h
    | some c0 =>
      have hpred := List.findIdx?_of_eq_some hf
      rw [hc] at hpred
      simp only [Bool.and_eq_true, Bool.or_eq_true, beq_iff_eq] at hpred
      obtain ⟨⟨ha0, -⟩, hor⟩ := hpred
      have hi : i < cmds.length := lt_length_of_getElem?_some hc
      have heq : locateStep cmds idx v =
          closePrev (cmds.set i
            { c0 with indexFrom := (idx : Int), argID := (idx : Int) }) i idx := by
        unfold locateStep
        simp only [hf, hc]
      rw [heq]
      generalize hc1 : ({ c0 with indexFrom := (idx : Int), argID := (idx : Int) } : Command) = c1
      have hc1ids : prIds c1 = ((idx : Int), c0.parentID) := by
        rw [← hc1]
        rfl
      have hset : ∀ k : Nat, ((cmds.set i c1)[k]?).map prIds =
          if i = k then some ((idx : Int), c0.parentID) else (cmds[k]?).map prIds := by
        intro k
        by_cases hk : i = k
        · subst hk
          rw [List.getElem?_set_self hi, if_pos rfl, Option.map_some', hc1ids]
        · rw [List.getElem?_set_ne hk, if_neg hk]
      have hres := closePrev_prIds (cmds.set i c1) i idx
      have htrans : ∀ (j : Nat) (p : Command), cmds[j]? = some p → ¬p.argID = -1 →
          ∃ (j2 : Nat) (p2 : Command), (closePrev (cmds.set i c1) i idx)[j2]? = some p2 ∧
            ¬p2.argID = -1 ∧ p2.argID = p.argID := by
        intro j p hj hpa
        have hji : ¬i = j := by
          intro hij
          rw [← hij, hc] at hj
          have hpe : p = c0 := (Option.some.inj hj).symm
          rw [hpe, ha0] at hpa
          exact hpa rfl
        have hprj := hres j
        rw [hset j, if_neg hji, hj] at hprj
        cases hj2 : (closePrev (cmds.set i c1) i idx)[j]? with
        | none => rw [hj2] at hprj; simp at hprj
        | some p2 =>
          rw [hj2] at hprj
          simp only [Option.map_some', Option.some.injEq] at hprj
          have hprja : p2.argID = p.argID := congrArg Prod.fst hprj
          refine ⟨j, p2, hj2, ?_, hprja⟩
          rw [hprja]
          exact hpa
      intro k c hk hp ha
      have hprk := hres k
      rw [hk, hset k] at hprk
      by_cases hki : i = k
      · rw [if_pos hki] at hprk
        simp only [Option.map_some', Option.some.injEq] at hprk
        have hcarg : c.argID = (idx : Int) := congrArg Prod.fst hprk
        have hcpar : c.parentID = c0.parentID := congrArg Prod.snd hprk
        have hpar : ¬c0.parentID = -1 := by
          rw [← hcpar]
          exact hp
        have hany : anyLocatedBefore cmds idx = true := by
          rcases hor with h1 | h1
          · exact absurd h1 hpar
          · exact h1
        unfold anyLocatedBefore at hany
        rw [List.any_eq_true] at hany
        obtain ⟨p, hpmem, hpp⟩ := hany
        simp only [Bool.and_eq_true, bne_iff_ne, decide_eq_true_eq] at hpp
        obtain ⟨hpa, hplt⟩ := hpp
        obtain ⟨j, hj⟩ := List.getElem?_of_mem hpmem
        obtain ⟨j2, p2, hj2, hp2a, hp2eq⟩ := htrans j p hj hpa
        refine ⟨j2, p2, hj2, hp2a, ?_⟩
        rw [hp2eq, hcarg]
        exact hplt
      · rw [if_neg hki] at hprk
        cases hck : cmds[k]? with
        | none => rw [hck] at hprk; simp at hprk
        | some c1k =>
          rw [hck] at hprk
          simp only [Option.map_some', Option.some.injEq] at hprk
          have hka : c.argID = c1k.argID := congrArg Prod.fst hprk
          have hkp : c.parentID = c1k.parentID := congrArg Prod.snd hprk
          have hp1 : ¬c1k.parentID = -1 := by
            rw [← hkp]
            exact hp
          have ha1 : ¬c1k.argID = -1 := by
            rw [← hka]
            exact ha
          obtain ⟨j, p, hj, hpa, hplt⟩ := h k c1k hck hp1 ha1
          obtain ⟨j2, p2, hj2, hp2a, hp2eq⟩ := htrans j p hj hpa
          refine ⟨j2, p2, hj2, hp2a, ?_⟩
          rw [hp2eq, hka]
          exact hplt

theorem locateCommands_ok (argsRaw : List (Nat × String)) (cmds : List Command)
    (h : locatedAfterSome cmds) :
    locatedAfterSome (argsRaw.foldl (fun cs p => locateStep cs p.1 p.2) cmds) := by
  induction argsRaw generalizing cmds with
  | nil => exact h
  | cons p ps ih => exact ih (locateStep cmds p.1 p.2) (locateStep_ok cmds p.1 p.2 h)

theorem closeRangesStep_prIds (rawLen : Nat) (cmds : List Command) (i : Nat) :
    ∀ k : Nat, ((closeRangesStep rawLen cmds i)[k]?).map prIds = (cmds[k]?).map prIds := by
  intro k
  unfold closeRangesStep
  split
  · rfl
  · rename_i c hc
    split
    · rfl
    · split
      · by_cases hk : i = k
        · subst hk
          rw [List.getElem?_set_self (lt_length_of_getElem?_some hc), hc]
          rfl
        · rw [List.getElem?_set_ne hk]
      · split
        · by_cases hk : i = k
          · subst hk
            rw [List.getElem?_set_self (lt_length_of_getElem?_some hc), hc]
            rfl
          · rw [List.getElem?_set_ne hk]
        · by_cases hk : i = k
          · subst hk
            rw [List.getElem?_set_self (lt_length_of_getElem?_some hc), hc]
            rfl
          · rw [List.getElem?_set_ne hk]

theorem closeRanges_prIds (rawLen : Nat) (idxs : List Nat) (cmds : List Command) :
    ∀ k : Nat, ((idxs.foldl (closeRangesStep rawLen) cmds)[k]?).map prIds =
      (cmds[k]?).map prIds := by
  induction idxs generalizing cmds with
  | nil => intro k; rfl
  | cons i is ih =>
    intro k
    rw [List.foldl_cons, ih (closeRangesStep rawLen cmds i) k, closeRangesStep_prIds]

/-- C8 (amended): every command that `parseCommands` marks as located and
that has a declared parent is located at a token index strictly after the
located occurrence of SOME declared command — not necessarily its own
parent; the scan only checks that some command is already located strictly
earlier, so a nested command can be located even though its own parent
never occurs. -/
theorem parseCommands_located_after_some (init : List Command) (toks : List String)
    (hinit : ∀ c ∈ init, c.argID = -1) :
    locatedAfterSome (parseCommands init toks) := by
  have h0 : locatedAfterSome init := by
    intro k c hk hp ha
    exact absurd (hinit c (List.mem_iff_getElem?.mpr ⟨k, hk⟩)) ha
  have h1 : locatedAfterSome (locateCommands init toks) :=
    locateCommands_ok toks.enum init h0
  unfold parseCommands closeRanges
  exact locatedAfterSome_of_prIds _ _ (closeRanges_prIds toks.length _ _) h1

/-- The claim's own location property, written from its words: every
located nested command is located strictly after its own parent command's
located occurrence (command ids equal list positions). -/
def claimNestedAfterParent (cmds : List Command) : Prop :=
  ∀ (k : Nat) (c : Command), cmds[k]? = some c → ¬c.parentID = -1 → ¬c.argID = -1 →
    ∃ p : Command, cmds[c.parentID.toNat]? = some p ∧ ¬p.argID = -1 ∧ p.argID < c.argID

/-- C8 (counterexample): with commands `g` (top level), `p` (child of `g`)
and `g` (child of `p`, sharing the grandparent's literal name) and input
`g g`, the nested `g` is located at token index 1 although its parent `p`
never occurs in the input: the claim's property fails on the scan's
output. -/
theorem claim_nested_after_parent_counterexample :
    ¬claimNestedAfterParent
      (parseCommands
        [{ command := "g" }, { command := "p", parentID := 0 },
         { command := "g", parentID := 1 }] ["g", "g"]) := by
  intro h
  have h2 := h 2
    { command := "g", parentID := 1, argID := 1, indexFrom := 1, indexTo := 2 }
    (by decide) (by decide) (by decide)
  obtain ⟨p, hp, hpa, -⟩ := h2
  have h1 : (parseCommands
      [{ command := "g" }, { command := "p", parentID := 0 },
       { command := "g", parentID := 1 }] ["g", "g"])[(1 : Int).toNat]? =
      some { command := "p", parentID := 0, argID := -1, indexFrom := -1, indexTo := -1 } := by
    decide
  rw [h1] at hp
  have : p = { command := "p", parentID := 0, argID := -1, indexFrom := -1, indexTo := -1 } := by
    exact (Option.some.inj hp).symm
  rw [this] at hpa
  exact hpa rfl

/-- Witness for `parseCommands_located_after_some` at the counterexample
input: the located nested command at position 2 does have some command
located strictly earlier. -/
theorem parseCommands_located_after_some_witness :
    ∃ (j : Nat) (p : Command), (parseCommands
        [{ command := "g" }, { command := "p", parentID := 0 },
         { command := "g", parentID := 1 }] ["g", "g"])[j]? = some p ∧
      ¬p.argID = -1 ∧ p.argID < (1 : Int) :=
  parseCommands_located_after_some
    [{ command := "g" }, { command := "p", parentID := 0 },
     { command := "g", parentID := 1 }] ["g", "g"] (by decide) 2
    { command := "g", parentID := 1, argID := 1, indexFrom := 1, indexTo := 2 }
    (by decide) (by decide) (by decide)

/-! Construction-time name validation. -/

theorem regGet_put (m : List (String × RegEntry)) (k k2 : String) (v : RegEntry) :
    regGet (regPut m k v) k2 = if k2 = k then some v else regGet m k2 := by
  unfold regGet regPut
  by_cases h : k2 = k
  · subst h
    rw [List.find?_cons_of_pos _ (by simp)]
    simp
  · rw [List.find?_cons_of_neg _ (by simp [Ne.symm h])]
    simp [h]

theorem registerName_of_empty (lc : Bool) (label : String)
    (m : List (String × RegEntry)) (n p : String) :
    registerName lc label m "" n p = (m, []) := by
  unfold registerName
  simp

theorem registerName_dup_err (lc : Bool) (label : String)
    (m : List (String × RegEntry)) (key n p : String) (e : RegEntry)
    (hk : ¬key = "") (hg : regGet m key = some e) (hp : e.2 = p) :
    (registerName lc label m key n p).2 ≠ [] := by
  unfold registerName
  simp only [hg, hp]
  rw [if_neg (by simpa using hk)]
  simp

theorem registerName_sets (lc : Bool) (label : String)
    (m : List (String × RegEntry)) (key n p : String)
    (hk : ¬key = "")
    (hg : ∀ e, regGet m key = some e → ¬e.2 = p)
    (hl : lc = true → key.length ≤ 1) :
    registerName lc label m key n p = (regPut m key (n, p), []) := by
  unfold registerName
  rw [if_neg (by simpa using hk)]
  have hlen : ¬(lc && decide (key.length > 1)) = true := by
    intro hcon
    simp only [Bool.and_eq_true, decide_eq_true_eq] at hcon
    have := hl hcon.1
    omega
  cases hge : regGet m key with
  | none =>
    simp only
    rw [if_neg hlen]
  | some e =>
    simp only
    rw [if_neg (by simp [hg e hge]), if_neg hlen]

theorem registerName_map_cases (lc : Bool) (label : String)
    (m : List (String × RegEntry)) (key n p : String) :
    (registerName lc label m key n p).1 = m ∨
    (registerName lc label m key n p).1 = regPut m key (n, p) := by
  unfold registerName
  split
  · exact Or.inl rfl
  · split
    · split
      · exact Or.inl rfl
      · split
        · exact Or.inl rfl
        · exact Or.inr rfl
    · split
      · exact Or.inl rfl
      · exact Or.inr rfl

theorem registerName_get_other (lc : Bool) (label : String)
    (m : List (String × RegEntry)) (key n p k2 : String) (hk : ¬k2 = key) :
    regGet ((registerName lc label m key n p).1) k2 = regGet m k2 := by
  rcases registerName_map_cases lc label m key n p with h | h <;> rw [h]
  rw [regGet_put, if_neg hk]

theorem checkFlagStep_errs_mono (st : CFState) (v : DeclFlag) :
    ∃ t, (checkFlagStep st v).errs = st.errs ++ t := by
  unfold checkFlagStep
  dsimp only
  rw [List.append_assoc, List.append_assoc, List.append_assoc]
  exact ⟨_, rfl⟩

theorem foldl_checkFlagStep_errs_mono (flags : List DeclFlag) (st : CFState) :
    ∃ t, (flags.foldl checkFlagStep st).errs = st.errs ++ t := by
  induction flags generalizing st with
  | nil => exact ⟨[], by simp⟩
  | cons v rest ih =>
    obtain ⟨t1, h1⟩ := checkFlagStep_errs_mono st v
    obtain ⟨t2, h2⟩ := ih (checkFlagStep st v)
    exact ⟨t1 ++ t2, by rw [List.foldl_cons, h2, h1, List.append_assoc]⟩

theorem foldl_checkFlagStep_errs_ne (flags : List DeclFlag) (st : CFState)
    (h : st.errs ≠ []) : (flags.foldl checkFlagStep st).errs ≠ [] := by
  obtain ⟨t, ht⟩ := foldl_checkFlagStep_errs_mono flags st
  rw [ht]
  intro hcon
  rw [List.append_eq_nil] at hcon
  exact h hcon.1

theorem regDetect1 (keyf : DeclFlag → String) (getm : CFState → List (String × RegEntry))
    (lc : Bool) (label : String)
    (hsel1 : ∀ st v, getm (checkFlagStep st v) =
      (registerName lc label (getm st) (keyf v) v.name v.parent).1)
    (hsel2 : ∀ st v, (registerName lc label (getm st) (keyf v) v.name v.parent).2 ≠ [] →
      (checkFlagStep st v).errs ≠ [])
    (s p : String) (hs : ¬s = "") :
    ∀ (flags : List DeclFlag) (st : CFState) (e : RegEntry),
      (∀ v ∈ flags, keyf v = s → v.parent = p) →
      regGet (getm st) s = some e → e.2 = p →
      1 ≤ (flags.filter (fun v => keyf v == s)).length →
      (flags.foldl checkFlagStep st).errs ≠ [] := by
  intro flags
  induction flags with
  | nil =>
    intro st e _ _ _ hcount
    simp at hcount
  | cons v rest ih =>
    intro st e hscope hget hep hcount
    rw [List.foldl_cons]
    by_cases hv : keyf v = s
    · have hp := hscope v (by simp) hv
      have hdup := registerName_dup_err lc label (getm st) (keyf v) v.name v.parent e
        (by rw [hv]; exact hs) (by rw [hv]; exact hget) (hep.trans hp.symm)
      exact foldl_checkFlagStep_errs_ne rest _ (hsel2 st v hdup)
    · refine ih (checkFlagStep st v) e ?_ ?_ hep ?_
      · intro w hw hkw
        exact hscope w (by simp [hw]) hkw
      · rw [hsel1 st v,
          registerName_get_other lc label (getm st) (keyf v) v.name v.parent s
            (fun hc => hv hc.symm)]
        exact hget
      · rw [List.filter_cons_of_neg (by simp [hv])] at hcount
        exact hcount

theorem regDetect (keyf : DeclFlag → String) (getm : CFState → List (String × RegEntry))
    (lc : Bool) (label : String)
    (hsel1 : ∀ st v, getm (checkFlagStep st v) =
      (registerName lc label (getm st) (keyf v) v.name v.parent).1)
    (hsel2 : ∀ st v, (registerName lc label (getm st) (keyf v) v.name v.parent).2 ≠ [] →
      (checkFlagStep st v).errs ≠ [])
    (s p : String) (hs : ¬s = "") (hlen : lc = true → s.length ≤ 1) :
    ∀ (flags : List DeclFlag) (st : CFState),
      (∀ v ∈ flags, keyf v = s → v.parent = p) →
      2 ≤ (flags.filter (fun v => keyf v == s)).length →
      (flags.foldl checkFlagStep st).errs ≠ [] := by
  intro flags
  induction flags with
  | nil =>
    intro st _ hcount
    simp at hcount
  | cons v rest ih =>
    intro st hscope hcount
    rw [List.foldl_cons]
    by_cases hv : keyf v = s
    · have hp := hscope v (by simp) hv
      have hcount2 : 1 ≤ (rest.filter (fun w => keyf w == s)).length := by
        rw [List.filter_cons_of_pos (by simp [hv])] at hcount
        simp only [List.length_cons] at hcount
        omega
      have hscope2 : ∀ w ∈ rest, keyf w = s → w.parent = p := by
        intro w hw hkw
        exact hscope w (by simp [hw]) hkw
      cases hget : regGet (getm st) s with
      | some e =>
        by_cases hez : e.2 = p
        · have hdup := registerName_dup_err lc label (getm st) (keyf v) v.name v.parent e
            (by rw [hv]; exact hs) (by rw [hv]; exact hget) (hez.trans hp.symm)
          exact foldl_checkFlagStep_errs_ne rest _ (hsel2 st v hdup)
        · have hset := registerName_sets lc label (getm st) (keyf v) v.name v.parent
            (by rw [hv]; exact hs)
            (by intro e2 hg2
                rw [hv, hget] at hg2
                intro hcon
                exact hez (((Option.some.inj hg2) ▸ hcon).trans hp))
            (by intro hl; rw [hv]; exact hlen hl)
          refine regDetect1 keyf getm lc label hsel1 hsel2 s p hs rest
            (checkFlagStep st v) (v.name, v.parent) hscope2 ?_ hp hcount2
          rw [hsel1 st v, hset, regGet_put]
          rw [if_pos hv.symm]
      | none =>
        have hset := registerName_sets lc label (getm st) (keyf v) v.name v.parent
          (by rw [hv]; exact hs)
          (by intro e2 hg2
              rw [hv, hget] at hg2
              exact absurd hg2 (by simp))
          (by intro hl; rw [hv]; exact hlen hl)
        refine regDetect1 keyf getm lc label hsel1 hsel2 s p hs rest
          (checkFlagStep st v) (v.name, v.parent) hscope2 ?_ hp hcount2
        rw [hsel1 st v, hset, regGet_put]
        rw [if_pos hv.symm]
    · have hcount2 : 2 ≤ (rest.filter (fun w => keyf w == s)).length := by
        rw [List.filter_cons_of_neg (by simp [hv])] at hcount
        exact hcount
      refine ih (checkFlagStep st v) ?_ hcount2
      intro w hw hkw
      exact hscope w (by simp [hw]) hkw

theorem checkFlagStep_shorts (st : CFState) (v : DeclFlag) :
    (checkFlagStep st v).shorts =
      (registerName true "short argument" st.shorts v.short v.name v.parent).1 := rfl

theorem checkFlagStep_longs (st : CFState) (v : DeclFlag) :
    (checkFlagStep st v).longs =
      (registerName false "long argument" st.longs v.long v.name v.parent).1 := rfl

theorem checkFlagStep_commands (st : CFState) (v : DeclFlag) :
    (checkFlagStep st v).commands =
      (registerName false "command" st.commands v.command v.name v.parent).1 := rfl

theorem checkFlagStep_errs_of_short (st : CFState) (v : DeclFlag)
    (h : (registerName true "short argument" st.shorts v.short v.name v.parent).2 ≠ []) :
    (checkFlagStep st v).errs ≠ [] := by
  unfold checkFlagStep
  dsimp only
  intro hcon
  simp only [List.append_eq_nil] at hcon
  exact h hcon.1.1.1.2

theorem checkFlagStep_errs_of_long (st : CFState) (v : DeclFlag)
    (h : (registerName false "long argument" st.longs v.long v.name v.parent).2 ≠ []) :
    (checkFlagStep st v).errs ≠ [] := by
  unfold checkFlagStep
  dsimp only
  intro hcon
  simp only [List.append_eq_nil] at hcon
  exact h hcon.1.1.2

theorem checkFlagStep_errs_of_command (st : CFState) (v : DeclFlag)
    (h : (registerName false "command" st.commands v.command v.name v.parent).2 ≠ []) :
    (checkFlagStep st v).errs ≠ [] := by
  unfold checkFlagStep
  dsimp only
  intro hcon
  simp only [List.append_eq_nil] at hcon
  exact h hcon.1.2

/-- Pairwise distinctness of declared names across scopes: no two declared
flags share a non-empty short, long, or command name within the same parent
scope. -/
def distinctScopedNames (flags : List DeclFlag) : Prop :=
  flags.Pairwise (fun u w =>
    (u.short = w.short → ¬u.short = "" → ¬u.parent = w.parent) ∧
    (u.long = w.long → ¬u.long = "" → ¬u.parent = w.parent) ∧
    (u.command = w.command → ¬u.command = "" → ¬u.parent = w.parent))

/-- Invariant of one registry during the `checkFlags` scan: every
registered entry has a non-empty key and no flag still to be processed
re-uses that key in the entry's scope. -/
def mapOK (keyf : DeclFlag → String) (m : List (String × RegEntry))
    (rest : List DeclFlag) : Prop :=
  ∀ k e, regGet m k = some e → ¬k = "" ∧ ∀ w ∈ rest, ¬(keyf w = k ∧ w.parent = e.2)

theorem registerName_clean (lc : Bool) (label : String)
    (m : List (String × RegEntry)) (keyf : DeclFlag → String)
    (v : DeclFlag) (rest : List DeclFlag)
    (hm : mapOK keyf m (v :: rest))
    (hlen : lc = true → (keyf v).length ≤ 1)
    (hpair : ∀ w ∈ rest, keyf v = keyf w → ¬keyf v = "" → ¬v.parent = w.parent) :
    (registerName lc label m (keyf v) v.name v.parent).2 = [] ∧
    mapOK keyf (registerName lc label m (keyf v) v.name v.parent).1 rest := by
  by_cases hk : keyf v = ""
  · rw [hk, registerName_of_empty]
    refine ⟨rfl, ?_⟩
    intro k e hg
    obtain ⟨h1, h2⟩ := hm k e hg
    exact ⟨h1, fun w hw => h2 w (by simp [hw])⟩
  · have hset := registerName_sets lc label m (keyf v) v.name v.parent hk
      (by intro e hg hcon
          obtain ⟨-, h2⟩ := hm (keyf v) e hg
          exact h2 v (by simp) ⟨rfl, hcon.symm⟩)
      hlen
    rw [hset]
    refine ⟨rfl, ?_⟩
    intro k e hg
    rw [regGet_put] at hg
    by_cases hkk : k = keyf v
    · rw [if_pos hkk] at hg
      have he : e = (v.name, v.parent) := (Option.some.inj hg).symm
      subst hkk
      refine ⟨hk, ?_⟩
      intro w hw hcon
      rw [he] at hcon
      exact hpair w hw hcon.1.symm hk hcon.2.symm
    · rw [if_neg hkk] at hg
      obtain ⟨h1, h2⟩ := hm k e hg
      exact ⟨h1, fun w hw => h2 w (by simp [hw])⟩

theorem checkFlags_clean_aux :
    ∀ (flags : List DeclFlag) (st : CFState),
      distinctScopedNames flags →
      (∀ v ∈ flags, v.short.length ≤ 1) →
      (∀ v ∈ flags, v.valueType ∈ supportedFlagTypes) →
      st.errs = [] →
      mapOK (fun v => v.short) st.shorts flags →
      mapOK (fun v => v.long) st.longs flags →
      mapOK (fun v => v.command) st.commands flags →
      (flags.foldl checkFlagStep st).errs = [] := by
  intro flags
  induction flags with
  | nil =>
    intro st _ _ _ herrs _ _ _
    exact herrs
  | cons v rest ih =>
    intro st hdist hlens htypes herrs hms hml hmc
    rw [distinctScopedNames, List.pairwise_cons] at hdist
    obtain ⟨hhead, htail⟩ := hdist
    obtain ⟨hse, hsm⟩ := registerName_clean true "short argument" st.shorts
      (fun v => v.short) v rest hms (fun _ => hlens v (by simp))
      (fun w hw h1 h2 => (hhead w hw).1 h1 h2)
    obtain ⟨hle, hlm⟩ := registerName_clean false "long argument" st.longs
      (fun v => v.long) v rest hml (by intro hcon; cases hcon)
      (fun w hw h1 h2 => (hhead w hw).2.1 h1 h2)
    obtain ⟨hce, hcm⟩ := registerName_clean false "command" st.commands
      (fun v => v.command) v rest hmc (by intro hcon; cases hcon)
      (fun w hw h1 h2 => (hhead w hw).2.2 h1 h2)
    have het : (if supportedFlagTypes.contains v.valueType then ([] : List String)
        else ["invalid type " ++ v.valueType ++ ". Supported types: " ++
          String.intercalate " " supportedFlagTypes]) = [] := by
      rw [if_pos]
      simpa using htypes v (by simp)
    have hstep : (checkFlagStep st v).errs = [] := by
      unfold checkFlagStep
      dsimp only
      rw [hse, hle, hce, het, herrs]
      rfl
    rw [List.foldl_cons]
    refine ih (checkFlagStep st v) htail
      (fun w hw => hlens w (by simp [hw]))
      (fun w hw => htypes w (by simp [hw])) hstep ?_ ?_ ?_
    · rw [checkFlagStep_shorts]
      exact hsm
    · rw [checkFlagStep_longs]
      exact hlm
    · rw [checkFlagStep_commands]
      exact hcm

/-- C7 (amended): construction fails whenever two declared flags in the same
parent scope share a short, long, or command name, PROVIDED every declared
holder of that name lives in that one scope (the registries keep only the
most recent holder of each name, so a flag with the same name declared in a
different scope between the duplicates can mask them — see the
counterexample); and when no two flags share a non-empty name within one
scope (names reused across different scopes at will), short names are at
most one character and all declared types are supported, construction
reports no error at all. -/
theorem checkFlags_same_scope_duplicates :
    (∀ (flags : List DeclFlag) (s p : String), ¬s = "" → s.length ≤ 1 →
      (∀ v ∈ flags, v.short = s → v.parent = p) →
      2 ≤ (flags.filter (fun v => v.short == s)).length →
      ¬checkFlags flags = []) ∧
    (∀ (flags : List DeclFlag) (s p : String), ¬s = "" →
      (∀ v ∈ flags, v.long = s → v.parent = p) →
      2 ≤ (flags.filter (fun v => v.long == s)).length →
      ¬checkFlags flags = []) ∧
    (∀ (flags : List DeclFlag) (s p : String), ¬s = "" →
      (∀ v ∈ flags, v.command = s → v.parent = p) →
      2 ≤ (flags.filter (fun v => v.command == s)).length →
      ¬checkFlags flags = []) ∧
    (∀ flags : List DeclFlag, distinctScopedNames flags →
      (∀ v ∈ flags, v.short.length ≤ 1) →
      (∀ v ∈ flags, v.valueType ∈ supportedFlagTypes) →
      checkFlags flags = []) := by
  refine ⟨?_, ?_, ?_, ?_⟩
  · intro flags s p hs hl hscope hcount
    unfold checkFlags
    exact regDetect (fun v => v.short) (fun st => st.shorts) true "short argument"
      (fun st v => checkFlagStep_shorts st v)
      (fun st v => checkFlagStep_errs_of_short st v)
      s p hs (fun _ => hl) flags {} hscope hcount
  · intro flags s p hs hscope hcount
    unfold checkFlags
    exact regDetect (fun v => v.long) (fun st => st.longs) false "long argument"
      (fun st v => checkFlagStep_longs st v)
      (fun st v => checkFlagStep_errs_of_long st v)
      s p hs (fun hcon => by cases hcon) flags {} hscope hcount
  · intro flags s p hs hscope hcount
    unfold checkFlags
    exact regDetect (fun v => v.command) (fun st => st.commands) false "command"
      (fun st v => checkFlagStep_commands st v)
      (fun st v => checkFlagStep_errs_of_command st v)
      s p hs (fun hcon => by cases hcon) flags {} hscope hcount
  · intro flags h1 h2 h3
    unfold checkFlags
    refine checkFlags_clean_aux flags {} h1 h2 h3 rfl ?_ ?_ ?_ <;>
      · intro k e hg
        simp [regGet] at hg

/-- C7 (counterexample): the flag list X (top level, short `x`),
CmdA (top-level command `a`), Y (short `x` inside CmdA's scope),
Z (top level, short `x`) declares the same-scope duplicate pair X/Z, yet
`checkFlags` reports no error: the flag Y of a different scope re-registers
`x` in between, masking the duplicate, so construction succeeds where the
claim says it must fail. -/
theorem checkFlags_masked_duplicate_counterexample :
    checkFlags
      [{ name := "X", short := "x", valueType := "int" },
       { name := "CmdA", command := "a", valueType := "struct" },
       { name := "Y", short := "x", valueType := "int", parent := "[1]" },
       { name := "Z", short := "x", valueType := "int" }] = [] ∧
    ({ name := "X", short := "x", valueType := "int" } : DeclFlag).short =
      ({ name := "Z", short := "x", valueType := "int" } : DeclFlag).short ∧
    ({ name := "X", short := "x", valueType := "int" } : DeclFlag).parent =
      ({ name := "Z", short := "x", valueType := "int" } : DeclFlag).parent ∧
    ¬({ name := "X", short := "x", valueType := "int" } : DeclFlag).short = "" := by
  refine ⟨by decide, rfl, rfl, by decide⟩

/-- Witness for `checkFlags_same_scope_duplicates`: two top-level flags both
declaring short `x` are rejected, and a clean declaration produces no
error. -/
theorem checkFlags_same_scope_duplicates_witness :
    ¬checkFlags
        [{ name := "A", short := "x", valueType := "int" },
         { name := "B", short := "x", valueType := "int" }] = [] ∧
    checkFlags
        [{ name := "A", short := "x", valueType := "int" },
         { name := "B", short := "y", valueType := "int" }] = [] := by
  constructor
  · exact checkFlags_same_scope_duplicates.1
      [{ name := "A", short := "x", valueType := "int" },
       { name := "B", short := "x", valueType := "int" }] "x" ""
      (by decide) (by decide) (by decide) (by decide)
  · exact checkFlags_same_scope_duplicates.2.2.2
      [{ name := "A", short := "x", valueType := "int" },
       { name := "B", short := "y", valueType := "int" }]
      (by unfold distinctScopedNames; decide) (by decide) (by decide)

/-! Scalar and list value resolution. -/

theorem argCheck_value (t : String) (a : Arg) : (argCheck t a).value = effVal t a := by
  unfold argCheck
  dsimp only
  split
  · split
    · rfl
    · split
      · rfl
      · rfl
  · rfl

theorem argCheck_kind (t : String) (a : Arg) : (argCheck t a).kind = a.kind := by
  unfold argCheck
  dsimp only
  split
  · split
    · rfl
    · split
      · rfl
      · rfl
  · rfl

theorem argCheck_err_numeric_empty (t : String) (a : Arg)
    (hb : ¬isBoolKind t) (hs : ¬isStringKind t) (hv : effVal t a = "") :
    (argCheck t a).err.isSome = true := by
  unfold argCheck
  dsimp only
  rw [if_pos (by simp [hv]), if_neg (by simp [hb, hs]), if_pos ⟨hb, hs⟩]
  rfl

theorem applyArgStep_eq_of_arg (fl : FlagR) (a : Arg) (hk : a.kind = "arg") :
    applyArgStep fl a =
      applyArgValue { fl with valueBy := "arg" } (argCheck fl.valueType a) := by
  unfold applyArgStep
  rw [hk]
  simp

theorem applyArgValue_err_none (fl : FlagR) (ac : Arg)
    (hres : (applyArgValue fl ac).2.err = none) : ac.err = none := by
  by_cases h : ac.err.isSome
  · unfold applyArgValue at hres
    rw [if_pos h] at hres
    rw [hres] at h
    cases h
  · simpa using h

theorem applyArgStep_scalar (fl : FlagR) (a : Arg) (t : String)
    (ht : t ∈ scalarKinds) (htv : fl.valueType = t)
    (hk : a.kind = "arg")
    (hres : (applyArgStep fl a).2.err = none) :
    ∃ e, parseScalar t (effVal t a) = some e ∧
      (applyArgStep fl a).1 = { fl with valueBy := "arg", value := GoValue.scalar e } := by
  subst htv
  rw [applyArgStep_eq_of_arg fl a hk] at hres ⊢
  have hace : (argCheck fl.valueType a).err = none := applyArgValue_err_none _ _ hres
  have hnostart : goStartsWith fl.valueType "[]" = false := by
    simp only [scalarKinds, List.mem_cons, List.not_mem_nil, or_false] at ht
    rcases ht with h|h|h|h|h|h|h <;> rw [h] <;> rfl
  have hnum : ¬isBoolKind fl.valueType → ¬isStringKind fl.valueType →
      ¬effVal fl.valueType a = "" := by
    intro hb hs hv0
    have h2 := argCheck_err_numeric_empty fl.valueType a hb hs hv0
    rw [hace] at h2
    cases h2
  cases hsf : setFlagValue fl.valueType fl.value (effVal fl.valueType a) with
  | error e =>
    exfalso
    have happ : (applyArgValue { fl with valueBy := "arg" }
        (argCheck fl.valueType a)).2.err = some e := by
      unfold applyArgValue
      rw [if_neg (by simp [hace]), if_neg (by simp [hnostart]), argCheck_value, hsf]
    rw [happ] at hres
    cases hres
  | ok gv =>
    have happ : applyArgValue { fl with valueBy := "arg" } (argCheck fl.valueType a) =
        ({ fl with valueBy := "arg", value := gv }, argCheck fl.valueType a) := by
      unfold applyArgValue
      rw [if_neg (by simp [hace]), if_neg (by simp [hnostart]), argCheck_value, hsf]
    rw [happ]
    dsimp only
    simp only [scalarKinds, List.mem_cons, List.not_mem_nil, or_false] at ht
    rcases ht with h|h|h|h|h|h|h <;> rw [h] at hsf hnum ⊢
    · simp only [setFlagValue] at hsf
      split at hsf
      · cases hsf
      · rename_i hcond
        rw [not_and_or, not_not, not_not] at hcond
        by_cases h2 : effVal "bool" a = "true"
        · rw [if_pos h2] at hsf
          refine ⟨GoScalar.b true, ?_, ?_⟩
          · simp only [parseScalar]
            rw [if_pos h2]
          · rw [← Except.ok.inj hsf]
        · rw [if_neg h2] at hsf
          have h3 : effVal "bool" a = "false" := by
            rcases hcond with h4 | h4
            · exact absurd h4 h2
            · exact h4
          refine ⟨GoScalar.b false, ?_, ?_⟩
          · simp only [parseScalar]
            rw [if_neg h2, if_pos h3]
          · rw [← Except.ok.inj hsf]
    · have hv : ¬effVal "float64" a = "" := hnum (by decide) (by decide)
      simp only [setFlagValue] at hsf
      rw [if_pos hv] at hsf
      cases hp : goParseFloat (effVal "float64" a) with
      | none => rw [hp] at hsf; cases hsf
      | some q =>
        rw [hp] at hsf
        refine ⟨GoScalar.f q, ?_, ?_⟩
        · simp only [parseScalar]
          rw [if_neg hv, hp]
          rfl
        · rw [← Except.ok.inj hsf]
    · have hv : ¬effVal "int" a = "" := hnum (by decide) (by decide)
      simp only [setFlagValue] at hsf
      rw [if_pos hv] at hsf
      cases hp : goParseInt (effVal "int" a) 64 with
      | none => rw [hp] at hsf; cases hsf
      | some n =>
        rw [hp] at hsf
        refine ⟨GoScalar.i n, ?_, ?_⟩
        · simp only [parseScalar]
          rw [if_neg hv, hp]
          rfl
        · rw [← Except.ok.inj hsf]
    · have hv : ¬effVal "int64" a = "" := hnum (by decide) (by decide)
      simp only [setFlagValue] at hsf
      rw [if_pos hv] at hsf
      cases hp : goParseInt (effVal "int64" a) 64 with
      | none => rw [hp] at hsf; cases hsf
      | some n =>
        rw [hp] at hsf
        refine ⟨GoScalar.i n, ?_, ?_⟩
        · simp only [parseScalar]
          rw [if_neg hv, hp]
          rfl
        · rw [← Except.ok.inj hsf]
    · have hv : ¬effVal "uint" a = "" := hnum (by decide) (by decide)
      simp only [setFlagValue] at hsf
      rw [if_pos hv] at hsf
      cases hp : goParseUint (effVal "uint" a) 64 with
      | none => rw [hp] at hsf; cases hsf
      | some n =>
        rw [hp] at hsf
        refine ⟨GoScalar.u n, ?_, ?_⟩
        · simp only [parseScalar]
          rw [if_neg hv, hp]
          rfl
        · rw [← Except.ok.inj hsf]
    · have hv : ¬effVal "uint64" a = "" := hnum (by decide) (by decide)
      simp only [setFlagValue] at hsf
      rw [if_pos hv] at hsf
      cases hp : goParseUint (effVal "uint64" a) 64 with
      | none => rw [hp] at hsf; cases hsf
      | some n =>
        rw [hp] at hsf
        refine ⟨GoScalar.u n, ?_, ?_⟩
        · simp only [parseScalar]
          rw [if_neg hv, hp]
          rfl
        · rw [← Except.ok.inj hsf]
    · simp only [setFlagValue] at hsf
      refine ⟨GoScalar.s (effVal "string" a), rfl, ?_⟩
      rw [← Except.ok.inj hsf]

theorem foldl_unsetStep_of_no_err (margs : List Arg) (fl : FlagR)
    (h : ∀ a ∈ margs, a.err = none) : margs.foldl unsetStep fl = fl := by
  induction margs generalizing fl with
  | nil => rfl
  | cons a as ih =>
    rw [List.foldl_cons]
    have ha : unsetStep fl a = fl := by
      unfold unsetStep
      rw [if_neg (by simp [h a (by simp)])]
    rw [ha]
    exact ih fl (fun b hb => h b (by simp [hb]))

theorem resolveArgs_scalar (t : String) (ht : t ∈ scalarKinds) :
    ∀ (margs : List Arg) (fl : FlagR), fl.valueType = t →
      (∀ a ∈ margs, a.kind = "arg") →
      (∀ b ∈ (resolveArgs fl margs).2, b.err = none) →
      ¬margs = [] →
      ∃ la e, margs.getLast? = some la ∧ parseScalar t (effVal t la) = some e ∧
        (resolveArgs fl margs).1.value = GoValue.scalar e := by
  intro margs
  induction margs with
  | nil =>
    intro fl _ _ _ hne
    exact absurd rfl hne
  | cons a as ih =>
    intro fl htv hkind herr _
    have hres2 : (resolveArgs fl (a :: as)).2 =
        (applyArgStep fl a).2 :: (resolveArgs (applyArgStep fl a).1 as).2 := rfl
    have hres1 : (resolveArgs fl (a :: as)).1 =
        (resolveArgs (applyArgStep fl a).1 as).1 := rfl
    have herr_a : (applyArgStep fl a).2.err = none := by
      refine herr _ ?_
      rw [hres2]
      simp
    obtain ⟨e, hpe, hfe⟩ := applyArgStep_scalar fl a t ht htv (hkind a (by simp)) herr_a
    cases as with
    | nil =>
      refine ⟨a, e, rfl, hpe, ?_⟩
      rw [hres1]
      show (applyArgStep fl a).1.value = _
      rw [hfe]
    | cons a2 as2 =>
      have htv2 : (applyArgStep fl a).1.valueType = t := by
        rw [hfe]
        exact htv
      obtain ⟨la, e2, hlast, hp2, hv2⟩ := ih (applyArgStep fl a).1 htv2
        (fun b hb => hkind b (by simp [hb]))
        (fun b hb => herr b (by rw [hres2]; simp [hb])) (by simp)
      refine ⟨la, e2, ?_, hp2, ?_⟩
      · rw [List.getLast?_cons_cons]
        exact hlast
      · rw [hres1]
        exact hv2

/-- C2 (amended): for every scalar-typed flag and every token list with no
nested commands in which the flag's long or short name is matched by
several argument tokens, PROVIDED no matched occurrence acquires a
per-token error during resolution, the resolved value of the flag is the
coercion of the value carried by the last (rightmost) matching occurrence
(with a valueless bool occurrence carrying `true`); when an occurrence does
error, the flag is instead rolled back to its zero value, so the claim
fails without the proviso — see the counterexample. -/
theorem scalar_last_wins (envf : String → Option String) (fl : FlagR)
    (toks : List String) (t : String)
    (ht : t ∈ scalarKinds) (htv : fl.valueType = t) (_h0 : fl.valueBy = "")
    (hcount : 2 ≤ (matchedArgs fl.short fl.long (parseTokens toks)).length)
    (herr : ∀ b ∈ (resolveTokens envf fl toks).2, b.err = none) :
    ∃ la e, (matchedArgs fl.short fl.long (parseTokens toks)).getLast? = some la ∧
      parseScalar t (effVal t la) = some e ∧
      (resolveTokens envf fl toks).1.value = GoValue.scalar e := by
  have hkinds : ∀ a ∈ matchedArgs fl.short fl.long (parseTokens toks), a.kind = "arg" :=
    fun a ha => (matchedArgs_inv fl.short fl.long toks a ha).2
  have hne : ¬matchedArgs fl.short fl.long (parseTokens toks) = [] := by
    intro hcon
    rw [hcon] at hcount
    simp at hcount
  have hsnd : (resolveTokens envf fl toks).2 =
      (resolveArgs fl (matchedArgs fl.short fl.long (parseTokens toks))).2 := rfl
  rw [hsnd] at herr
  obtain ⟨la, e, hlast, hpe, hval⟩ :=
    resolveArgs_scalar t ht (matchedArgs fl.short fl.long (parseTokens toks)) fl htv
      hkinds herr hne
  refine ⟨la, e, hlast, hpe, ?_⟩
  have hfst : (resolveTokens envf fl toks).1 =
      applyEnvDefault envf
        (resolveArgs fl (matchedArgs fl.short fl.long (parseTokens toks))).1
        (resolveArgs fl (matchedArgs fl.short fl.long (parseTokens toks))).2 := rfl
  rw [hfst]
  have hvb : (resolveArgs fl (matchedArgs fl.short fl.long (parseTokens toks))).1.valueBy =
      "arg" := by
    rw [resolveArgs_fst_valueBy]
    cases hm : matchedArgs fl.short fl.long (parseTokens toks) with
    | nil => exact absurd hm hne
    | cons a as =>
      rw [if_pos]
      rw [List.any_cons]
      have := hkinds a (by rw [hm]; simp)
      simp [this]
  rw [applyEnvDefault_of_arg envf _ _ hvb,
    foldl_unsetStep_of_no_err _ _ herr, hval]

/-- C2 (counterexample): an int flag matched twice, `-i=x` then `-i=5`:
the first occurrence's parse error rolls the flag back to zero, so the
resolved value is 0, not the last occurrence's value 5. -/
theorem scalar_last_wins_counterexample :
    (resolveTokens (fun _ => none)
        { valueType := "int", short := "i", value := zeroValue "int" }
        ["-i=x", "-i=5"]).1.value = GoValue.scalar (GoScalar.i 0) ∧
    2 ≤ (matchedArgs "i" "" (parseTokens ["-i=x", "-i=5"])).length ∧
    (matchedArgs "i" "" (parseTokens ["-i=x", "-i=5"])).getLast?.map (fun a => a.value) =
      some "5" ∧
    parseScalar "int" "5" = some (GoScalar.i 5) ∧
    ¬GoValue.scalar (GoScalar.i 0) = GoValue.scalar (GoScalar.i 5) := by
  refine ⟨by decide, by decide, by decide, by decide, by decide⟩

/-- Witness for `scalar_last_wins`: an int flag given `-i=3 -i=5` resolves
to 5. -/
theorem scalar_last_wins_witness :
    (resolveTokens (fun _ => none)
        { valueType := "int", short := "i", value := zeroValue "int" }
        ["-i=3", "-i=5"]).1.value = GoValue.scalar (GoScalar.i 5) := by
  obtain ⟨la, e, hlast, hpe, hval⟩ := scalar_last_wins (fun _ => none)
    { valueType := "int", short := "i", value := zeroValue "int" }
    ["-i=3", "-i=5"] "int" (by decide) rfl rfl (by decide) (by decide)
  rw [hval]
  have hla : (matchedArgs "i" "" (parseTokens ["-i=3", "-i=5"])).getLast? =
      some { arg := "-i=5", name := "i", value := "5", dash := "-", hasEq := true,
             kind := "arg" } := by decide
  rw [hla] at hlast
  have hlae :
      la = { arg := "-i=5", name := "i", value := "5", dash := "-", hasEq := true, kind := "arg" } :=
    Option.some.inj hlast.symm
  rw [hlae] at hpe
  have hcomp :
      parseScalar "int" (effVal "int"
          { arg := "-i=5", name := "i", value := "5", dash := "-", hasEq := true, kind := "arg" }) =
        some (GoScalar.i 5) := by decide
  rw [hcomp] at hpe
  rw [← Option.some.inj hpe]

theorem setFlagValue_list_ok (t : String) (cur : GoValue) (v : String) (gv : GoValue)
    (ht : t ∈ listKinds) (h : setFlagValue t cur v = .ok gv) :
    gv = GoValue.list (goElems cur ++ (parseListElem t v).toList) ∨
      (gv = cur ∧ parseListElem t v = none) := by
  simp only [listKinds, List.mem_cons, List.not_mem_nil, or_false] at ht
  rcases ht with h1|h1|h1|h1|h1|h1|h1 <;> subst h1
  · simp only [setFlagValue] at h
    split at h
    · cases h
    · rename_i hcond
      rw [not_and_or, not_not, not_not] at hcond
      by_cases h2 : v = "true"
      · rw [if_pos h2] at h
        refine Or.inl ?_
        rw [← Except.ok.inj h]
        subst h2
        rfl
      · rw [if_neg h2] at h
        have h3 : v = "false" := by
          rcases hcond with h4 | h4
          · exact absurd h4 h2
          · exact h4
        refine Or.inl ?_
        rw [← Except.ok.inj h]
        subst h3
        rfl
  · simp only [setFlagValue] at h
    by_cases hv : v = ""
    · subst hv
      rw [if_neg (by simp)] at h
      exact Or.inr ⟨(Except.ok.inj h).symm, rfl⟩
    · rw [if_pos hv] at h
      cases hp : goParseFloat v with
      | none => rw [hp] at h; cases h
      | some q =>
        rw [hp] at h
        refine Or.inl ?_
        rw [← Except.ok.inj h]
        simp [parseListElem, hv, hp, appendElem]
  · simp only [setFlagValue] at h
    by_cases hv : v = ""
    · subst hv
      rw [if_neg (by simp)] at h
      exact Or.inr ⟨(Except.ok.inj h).symm, rfl⟩
    · rw [if_pos hv] at h
      cases hp : goParseInt v 32 with
      | none => rw [hp] at h; cases h
      | some n =>
        rw [hp] at h
        refine Or.inl ?_
        rw [← Except.ok.inj h]
        simp [parseListElem, hv, hp, appendElem]
  · simp only [setFlagValue] at h
    by_cases hv : v = ""
    · subst hv
      rw [if_neg (by simp)] at h
      exact Or.inr ⟨(Except.ok.inj h).symm, rfl⟩
    · rw [if_pos hv] at h
      cases hp : goParseInt v 64 with
      | none => rw [hp] at h; cases h
      | some n =>
        rw [hp] at h
        refine Or.inl ?_
        rw [← Except.ok.inj h]
        simp [parseListElem, hv, hp, appendElem]
  · simp only [setFlagValue] at h
    by_cases hv : v = ""
    · subst hv
      rw [if_neg (by simp)] at h
      exact Or.inr ⟨(Except.ok.inj h).symm, rfl⟩
    · rw [if_pos hv] at h
      cases hp : goParseUint v 32 with
      | none => rw [hp] at h; cases h
      | some n =>
        rw [hp] at h
        refine Or.inl ?_
        rw [← Except.ok.inj h]
        simp [parseListElem, hv, hp, appendElem]
  · simp only [setFlagValue] at h
    by_cases hv : v = ""
    · subst hv
      rw [if_neg (by simp)] at h
      exact Or.inr ⟨(Except.ok.inj h).symm, rfl⟩
    · rw [if_pos hv] at h
      cases hp : goParseUint v 64 with
      | none => rw [hp] at h; cases h
      | some n =>
        rw [hp] at h
        refine Or.inl ?_
        rw [← Except.ok.inj h]
        simp [parseListElem, hv, hp, appendElem]
  · simp only [setFlagValue] at h
    refine Or.inl ?_
    rw [← Except.ok.inj h]
    rfl

theorem setFlagValue_list_elems (t : String) (cur : GoValue) (v : String) (gv : GoValue)
    (ht : t ∈ listKinds) (h : setFlagValue t cur v = .ok gv) :
    goElems gv = goElems cur ++ (parseListElem t v).toList := by
  rcases setFlagValue_list_ok t cur v gv ht h with h1 | ⟨h1, h2⟩
  · rw [h1]
    rfl
  · rw [h1, h2]
    simp

theorem setFlagValue_list_shape (t : String) (xs : List GoScalar) (v : String) (gv : GoValue)
    (ht : t ∈ listKinds) (h : setFlagValue t (GoValue.list xs) v = .ok gv) :
    gv = GoValue.list (xs ++ (parseListElem t v).toList) := by
  rcases setFlagValue_list_ok t (GoValue.list xs) v gv ht h with h1 | ⟨h1, h2⟩
  · exact h1
  · rw [h1, h2]
    simp

theorem delimStep_snd_err_isSome (st : FlagR × Arg) (v : String)
    (h : st.2.err.isSome = true) : (delimStep st v).2.err.isSome = true := by
  unfold delimStep
  dsimp only
  split
  · exact h
  · split
    · exact h
    · rfl

theorem foldl_delimStep_snd_err_isSome (vs : List String) (st : FlagR × Arg)
    (h : st.2.err.isSome = true) : ((vs.foldl delimStep st).2).err.isSome = true := by
  induction vs generalizing st with
  | nil => exact h
  | cons v vs ih => exact ih (delimStep st v) (delimStep_snd_err_isSome st v h)

theorem foldl_delimStep_list (t : String) (ht : t ∈ listKinds) :
    ∀ (vs : List String) (st : FlagR × Arg) (xs : List GoScalar),
      st.1.valueType = t → st.1.value = GoValue.list xs →
      (vs.foldl delimStep st).2.err = none →
      (vs.foldl delimStep st).1.value =
        GoValue.list (xs ++
          ((vs.map goTrimSpace).filter (fun p => !(p == ""))).filterMap (parseListElem t)) := by
  intro vs
  induction vs with
  | nil =>
    intro st xs _ hval _
    simp [hval]
  | cons v vs ih =>
    intro st xs htv hval herr
    rw [List.foldl_cons] at herr ⊢
    by_cases hskip : goTrimSpace v = ""
    · have hd : delimStep st v = st := by
        unfold delimStep
        rw [if_pos (by simp [hskip])]
      rw [hd] at herr ⊢
      have hfilter : ((goTrimSpace v :: vs.map goTrimSpace).filter (fun p => !(p == ""))) =
          (vs.map goTrimSpace).filter (fun p => !(p == "")) := by
        rw [List.filter_cons_of_neg]
        simp [hskip]
      rw [List.map_cons, hfilter]
      exact ih st xs htv hval herr
    · have hd : delimStep st v =
          match setFlagValue t (GoValue.list xs) (goTrimSpace v) with
          | .ok gv => ({ st.1 with value := gv }, st.2)
          | .error e => (st.1, { st.2 with err := some e }) := by
        unfold delimStep
        rw [if_neg (by simp [hskip]), htv, hval]
      cases hsf : setFlagValue t (GoValue.list xs) (goTrimSpace v) with
      | error e =>
        exfalso
        rw [hsf] at hd
        rw [hd] at herr
        have hmono := foldl_delimStep_snd_err_isSome vs
          (st.1, { st.2 with err := some e }) rfl
        rw [herr] at hmono
        cases hmono
      | ok gv =>
        rw [hsf] at hd
        rw [hd] at herr ⊢
        have hgv : gv = GoValue.list (xs ++ (parseListElem t (goTrimSpace v)).toList) :=
          setFlagValue_list_shape t xs (goTrimSpace v) gv ht hsf
        have hih := ih ({ st.1 with value := gv }, st.2)
          (xs ++ (parseListElem t (goTrimSpace v)).toList)
          htv hgv herr
        rw [hih, List.map_cons, List.filter_cons_of_pos (by simp [hskip]),
          List.filterMap_cons]
        cases hp : parseListElem t (goTrimSpace v) with
        | none => simp
        | some e => simp

theorem applyArgStep_list (fl : FlagR) (a : Arg) (t : String) (xs : List GoScalar)
    (ht : t ∈ listKinds) (htv : fl.valueType = t) (hval : fl.value = GoValue.list xs)
    (hk : a.kind = "arg") (hres : (applyArgStep fl a).2.err = none) :
    (applyArgStep fl a).1 = { fl with valueBy := "arg", value := GoValue.list (xs ++ contribElems t fl.delimiter a) } := by
  subst htv
  rw [applyArgStep_eq_of_arg fl a hk] at hres ⊢
  have hace : (argCheck fl.valueType a).err = none := applyArgValue_err_none _ _ hres
  have hstart : goStartsWith fl.valueType "[]" = true := by
    simp only [listKinds, List.mem_cons, List.not_mem_nil, or_false] at ht
    rcases ht with h|h|h|h|h|h|h <;> rw [h] <;> rfl
  by_cases hdel : fl.delimiter = ""
  · have hcontrib : contribElems fl.valueType fl.delimiter a =
        (parseListElem fl.valueType (effVal fl.valueType a)).toList := by
      unfold contribElems listPiecesOf
      rw [if_neg (by simp [hdel])]
      cases hp : parseListElem fl.valueType (effVal fl.valueType a) <;>
        simp [List.filterMap_cons, hp]
    cases hsf : setFlagValue fl.valueType fl.value (effVal fl.valueType a) with
    | error e =>
      exfalso
      have happ : (applyArgValue { fl with valueBy := "arg" }
          (argCheck fl.valueType a)).2.err = some e := by
        unfold applyArgValue
        rw [if_neg (by simp [hace]), if_neg (by simp [hdel]), argCheck_value, hsf]
      rw [happ] at hres
      cases hres
    | ok gv =>
      have happ : applyArgValue { fl with valueBy := "arg" } (argCheck fl.valueType a) =
          ({ fl with valueBy := "arg", value := gv }, argCheck fl.valueType a) := by
        unfold applyArgValue
        rw [if_neg (by simp [hace]), if_neg (by simp [hdel]), argCheck_value, hsf]
      rw [happ]
      dsimp only
      rw [hval] at hsf
      have hgv := setFlagValue_list_shape fl.valueType xs _ gv ht hsf
      rw [hgv, hcontrib]
  · have happ : applyArgValue { fl with valueBy := "arg" } (argCheck fl.valueType a) =
        (goSplit (effVal fl.valueType a) fl.delimiter).foldl delimStep
          ({ fl with valueBy := "arg" }, argCheck fl.valueType a) := by
      unfold applyArgValue
      rw [if_neg (by simp [hace]), if_pos (show fl.delimiter ≠ "" ∧
        goStartsWith fl.valueType "[]" = true from ⟨hdel, hstart⟩), argCheck_value]
    rw [happ] at hres ⊢
    obtain ⟨gv, hshape⟩ := foldl_delimStep_fst_shape
      (goSplit (effVal fl.valueType a) fl.delimiter)
      ({ fl with valueBy := "arg" }, argCheck fl.valueType a)
    have hv := foldl_delimStep_list fl.valueType ht
      (goSplit (effVal fl.valueType a) fl.delimiter)
      ({ fl with valueBy := "arg" }, argCheck fl.valueType a) xs rfl hval hres
    have hgv : gv = GoValue.list (xs ++
        (((goSplit (effVal fl.valueType a) fl.delimiter).map goTrimSpace).filter
          (fun p => !(p == ""))).filterMap (parseListElem fl.valueType)) := by
      rw [hshape] at hv
      exact hv
    have hcontrib : contribElems fl.valueType fl.delimiter a =
        (((goSplit (effVal fl.valueType a) fl.delimiter).map goTrimSpace).filter
          (fun p => !(p == ""))).filterMap (parseListElem fl.valueType) := by
      unfold contribElems listPiecesOf
      rw [if_pos hdel]
    rw [hshape, hgv, hcontrib]

theorem resolveArgs_list (t : String) (ht : t ∈ listKinds) :
    ∀ (margs : List Arg) (fl : FlagR) (xs : List GoScalar),
      fl.valueType = t → fl.value = GoValue.list xs →
      (∀ a ∈ margs, a.kind = "arg") →
      (∀ b ∈ (resolveArgs fl margs).2, b.err = none) →
      (resolveArgs fl margs).1.value =
        GoValue.list (xs ++ (margs.map (contribElems t fl.delimiter)).flatten) := by
  intro margs
  induction margs with
  | nil =>
    intro fl xs _ hval _ _
    simp [resolveArgs, hval]
  | cons a as ih =>
    intro fl xs htv hval hkind herr
    have hres2 : (resolveArgs fl (a :: as)).2 =
        (applyArgStep fl a).2 :: (resolveArgs (applyArgStep fl a).1 as).2 := rfl
    have hres1 : (resolveArgs fl (a :: as)).1 =
        (resolveArgs (applyArgStep fl a).1 as).1 := rfl
    have herr_a : (applyArgStep fl a).2.err = none := by
      refine herr _ ?_
      rw [hres2]
      simp
    have hstep := applyArgStep_list fl a t xs ht htv hval (hkind a (by simp)) herr_a
    have htv2 : (applyArgStep fl a).1.valueType = t := by
      rw [hstep]
      exact htv
    have hval2 : (applyArgStep fl a).1.value =
        GoValue.list (xs ++ contribElems t fl.delimiter a) := by
      rw [hstep]
    have hdel2 : (applyArgStep fl a).1.delimiter = fl.delimiter := by
      rw [hstep]
    have hih := ih (applyArgStep fl a).1 (xs ++ contribElems t fl.delimiter a) htv2 hval2
      (fun b hb => hkind b (by simp [hb]))
      (fun b hb => herr b (by rw [hres2]; simp [hb]))
    rw [hres1, hih, hdel2, List.map_cons, List.flatten_cons, List.append_assoc]

theorem zeroValue_of_list (t : String) (ht : t ∈ listKinds) :
    zeroValue t = GoValue.list [] := by
  simp only [listKinds, List.mem_cons, List.not_mem_nil, or_false] at ht
  rcases ht with h|h|h|h|h|h|h <;> rw [h] <;> rfl

/-- C3 (amended): for every list-typed flag starting from its zero (empty)
slice and every token list with no nested commands in which the flag's long
or short name is matched at least once, PROVIDED no matched occurrence
acquires a per-token error during resolution, the resolved sequence is the
concatenation, in left-to-right token order, of the elements each matching
occurrence contributes (its value split on the declared delimiter when one
is present, each piece whitespace-trimmed and empty pieces dropped); and
every successful list-kind `setFlag` call appends at most one element to the
accumulated slice, never overwriting accumulated elements.  When an
occurrence does error, the whole accumulated sequence is rolled back to
empty, so the claim fails without the proviso — see the counterexample. -/
theorem list_concat_resolution (envf : String → Option String) (fl : FlagR)
    (toks : List String) (t : String)
    (ht : t ∈ listKinds) (htv : fl.valueType = t)
    (hzero : fl.value = zeroValue t)
    (hne : ¬matchedArgs fl.short fl.long (parseTokens toks) = [])
    (herr : ∀ b ∈ (resolveTokens envf fl toks).2, b.err = none) :
    (resolveTokens envf fl toks).1.value =
      GoValue.list (((matchedArgs fl.short fl.long (parseTokens toks)).map
        (contribElems t fl.delimiter)).flatten) ∧
    (∀ (t2 : String) (cur : GoValue) (v : String) (gv : GoValue), t2 ∈ listKinds →
      setFlagValue t2 cur v = .ok gv →
      goElems gv = goElems cur ++ (parseListElem t2 v).toList) := by
  refine ⟨?_, fun t2 cur v gv ht2 hok => setFlagValue_list_elems t2 cur v gv ht2 hok⟩
  have hkinds : ∀ a ∈ matchedArgs fl.short fl.long (parseTokens toks), a.kind = "arg" :=
    fun a ha => (matchedArgs_inv fl.short fl.long toks a ha).2
  have hsnd : (resolveTokens envf fl toks).2 =
      (resolveArgs fl (matchedArgs fl.short fl.long (parseTokens toks))).2 := rfl
  rw [hsnd] at herr
  have hzl : fl.value = GoValue.list [] := by
    rw [hzero]
    exact zeroValue_of_list t ht
  have hv := resolveArgs_list t ht (matchedArgs fl.short fl.long (parseTokens toks))
    fl [] htv hzl hkinds herr
  have hfst : (resolveTokens envf fl toks).1 =
      applyEnvDefault envf
        (resolveArgs fl (matchedArgs fl.short fl.long (parseTokens toks))).1
        (resolveArgs fl (matchedArgs fl.short fl.long (parseTokens toks))).2 := rfl
  rw [hfst]
  have hvb : (resolveArgs fl (matchedArgs fl.short fl.long (parseTokens toks))).1.valueBy =
      "arg" := by
    rw [resolveArgs_fst_valueBy]
    cases hm : matchedArgs fl.short fl.long (parseTokens toks) with
    | nil => exact absurd hm hne
    | cons a as =>
      rw [if_pos]
      rw [List.any_cons]
      have := hkinds a (by rw [hm]; simp)
      simp [this]
  rw [applyEnvDefault_of_arg envf _ _ hvb,
    foldl_unsetStep_of_no_err _ _ herr, hv]
  simp

/-- C3 (counterexample): a `[]int` flag with delimiter `,` given the single
token `-l=1,x,2`: the piece `x` fails to parse, the occurrence errors, and
the rollback of the erroring occurrence resets the whole slice, so the
resolved sequence is empty although the occurrence's contribution is
`[1, 2]` — the resolved sequence is not the concatenation of the per-
occurrence contributions, and the accumulated elements 1 and 2 were lost
rather than preserved. -/
theorem list_concat_resolution_counterexample :
    (resolveTokens (fun _ => none)
        { valueType := "[]int", short := "l", delimiter := ",", value := zeroValue "[]int" }
        ["-l=1,x,2"]).1.value = GoValue.list [] ∧
    ¬matchedArgs "l" "" (parseTokens ["-l=1,x,2"]) = [] ∧
    ((matchedArgs "l" "" (parseTokens ["-l=1,x,2"])).map
        (contribElems "[]int" ",")).flatten = [GoScalar.i 1, GoScalar.i 2] ∧
    ¬GoValue.list [] = GoValue.list [GoScalar.i 1, GoScalar.i 2] := by
  refine ⟨by decide, by decide, by decide, by decide⟩

/-- Witness for `list_concat_resolution`: a `[]int` flag with delimiter `,`
given `-l=1,2 -l=3` resolves to the sequence `[1, 2, 3]`. -/
theorem list_concat_resolution_witness :
    (resolveTokens (fun _ => none)
        { valueType := "[]int", short := "l", delimiter := ",", value := zeroValue "[]int" }
        ["-l=1,2", "-l=3"]).1.value =
      GoValue.list [GoScalar.i 1, GoScalar.i 2, GoScalar.i 3] := by
  obtain ⟨h1, _h2⟩ := list_concat_resolution (fun _ => none)
    { valueType := "[]int", short := "l", delimiter := ",", value := zeroValue "[]int" }
    ["-l=1,2", "-l=3"] "[]int" (by decide) rfl rfl (by decide) (by decide)
  rw [h1]
  decide

theorem applyArgValue_err_eq (fl : FlagR) (ac : Arg) (hs : ac.err.isSome = true) :
    applyArgValue fl ac = (fl, ac) := by
  unfold applyArgValue
  rw [if_pos hs]

theorem applyArgStep_compute (fl : FlagR) (a : Arg) (hk : a.kind = "arg")
    (hns : goStartsWith fl.valueType "[]" = false) :
    applyArgStep fl a =
      if (argCheck fl.valueType a).err.isSome then
        ({ fl with valueBy := "arg" }, argCheck fl.valueType a)
      else
        match setFlagValue fl.valueType fl.value (effVal fl.valueType a) with
        | .ok gv => ({ fl with valueBy := "arg", value := gv }, argCheck fl.valueType a)
        | .error e =>
          ({ fl with valueBy := "arg" },
            { argCheck fl.valueType a with value := effVal fl.valueType a, err := some e }) := by
  rw [applyArgStep_eq_of_arg fl a hk]
  by_cases hce : (argCheck fl.valueType a).err.isSome
  · rw [if_pos hce]
    exact applyArgValue_err_eq _ _ hce
  · rw [if_neg hce]
    unfold applyArgValue
    rw [if_neg hce]
    rw [if_neg (by simp [hns]), argCheck_value]

/-- C4 (amended): for a matched occurrence carrying no value text, the
value-defaulting and empty-value checks behave as follows.  (a) A bool flag
matched with no explicit value (not explicitly unset) is treated as literal
`true` and errors never.  (b) A bool flag explicitly unset (`--flag=`) gets
the per-argument error "needs a value" and the field is not written.  (c) A
non-bool, non-string flag given no value at all gets the same error.  (d) A
string flag matched bare with no value (e.g. as the last token) gets the
same error.  (e) A string flag explicitly unset — `--str=` or `--str=""` —
is ACCEPTED with no error, and the empty string is written; the claim's
assertion that `--str=""` errors fails — see the counterexample. -/
theorem value_defaulting_cases (fl : FlagR) (a : Arg) (hk : a.kind = "arg")
    (hv : a.value = "") (he : a.err = none) :
    ((fl.valueType = "bool" → a.unset = false →
      (applyArgStep fl a).1.value = GoValue.scalar (GoScalar.b true) ∧
      (applyArgStep fl a).2.err = none) ∧
     (fl.valueType = "bool" → a.unset = true →
      (applyArgStep fl a).2.err =
        some ("argument " ++ a.dash ++ a.name ++ " needs a value") ∧
      (applyArgStep fl a).1.value = fl.value) ∧
     (¬isBoolKind fl.valueType → ¬isStringKind fl.valueType →
      (applyArgStep fl a).2.err =
        some ("argument " ++ a.dash ++ a.name ++ " needs a value") ∧
      (applyArgStep fl a).1.value = fl.value) ∧
     (fl.valueType = "string" → a.unset = false →
      (applyArgStep fl a).2.err =
        some ("argument " ++ a.dash ++ a.name ++ " needs a value") ∧
      (applyArgStep fl a).1.value = fl.value) ∧
     (fl.valueType = "string" → a.unset = true →
      (applyArgStep fl a).2.err = none ∧
      (applyArgStep fl a).1.value = GoValue.scalar (GoScalar.s ""))) := by
  refine ⟨?_, ?_, ?_, ?_, ?_⟩
  · intro htv hu
    have he1 : effVal fl.valueType a = "true" := by
      unfold effVal
      rw [if_pos ⟨Or.inl htv, hv, by simp [hu]⟩]
    have hac : argCheck fl.valueType a = { a with value := "true" } := by
      unfold argCheck
      dsimp only
      rw [he1, if_neg (by simp)]
    have hns : goStartsWith fl.valueType "[]" = false := by
      rw [htv]
      decide
    have hsf : setFlagValue fl.valueType fl.value (effVal fl.valueType a) =
        Except.ok (GoValue.scalar (GoScalar.b true)) := by
      rw [he1, htv]
      rfl
    have happ : applyArgStep fl a = ({ fl with valueBy := "arg", value := GoValue.scalar (GoScalar.b true) }, { a with value := "true" }) := by
      rw [applyArgStep_compute fl a hk hns, hac, if_neg (by simp [he]), hsf]
    rw [happ]
    exact ⟨rfl, he⟩
  · intro htv hu
    have he1 : effVal fl.valueType a = "" := by
      unfold effVal
      rw [if_neg (by simp [hu])]
      exact hv
    have hac : argCheck fl.valueType a = { a with value := "", err := some ("argument " ++ a.dash ++ a.name ++ " needs a value") } := by
      unfold argCheck
      dsimp only
      rw [he1, if_pos (by simp), if_pos (Or.inl ⟨Or.inl htv, hu⟩)]
    have hskip := applyArgValue_err_eq { fl with valueBy := "arg" } { a with value := "", err := some ("argument " ++ a.dash ++ a.name ++ " needs a value") } rfl
    have happ : applyArgStep fl a = ({ fl with valueBy := "arg" }, { a with value := "", err := some ("argument " ++ a.dash ++ a.name ++ " needs a value") }) := by
      rw [applyArgStep_eq_of_arg fl a hk, hac, hskip]
    rw [happ]
    exact ⟨rfl, rfl⟩
  · intro hb hs
    have he1 : effVal fl.valueType a = "" := by
      unfold effVal
      rw [if_neg (fun hc => hb hc.1)]
      exact hv
    have hac : argCheck fl.valueType a = { a with value := "", err := some ("argument " ++ a.dash ++ a.name ++ " needs a value") } := by
      unfold argCheck
      dsimp only
      rw [he1, if_pos (by simp),
        if_neg (fun hc => hc.elim (fun h1 => hb h1.1) (fun h1 => hs h1.1)),
        if_pos ⟨hb, hs⟩]
    have hskip := applyArgValue_err_eq { fl with valueBy := "arg" } { a with value := "", err := some ("argument " ++ a.dash ++ a.name ++ " needs a value") } rfl
    have happ : applyArgStep fl a = ({ fl with valueBy := "arg" }, { a with value := "", err := some ("argument " ++ a.dash ++ a.name ++ " needs a value") }) := by
      rw [applyArgStep_eq_of_arg fl a hk, hac, hskip]
    rw [happ]
    exact ⟨rfl, rfl⟩
  · intro htv hu
    have he1 : effVal fl.valueType a = "" := by
      unfold effVal
      rw [if_neg (by rw [htv]; simp)]
      exact hv
    have hac : argCheck fl.valueType a = { a with value := "", err := some ("argument " ++ a.dash ++ a.name ++ " needs a value") } := by
      unfold argCheck
      dsimp only
      rw [he1, if_pos (by simp), if_pos (Or.inr ⟨Or.inl htv, by simp [hu]⟩)]
    have hskip := applyArgValue_err_eq { fl with valueBy := "arg" } { a with value := "", err := some ("argument " ++ a.dash ++ a.name ++ " needs a value") } rfl
    have happ : applyArgStep fl a = ({ fl with valueBy := "arg" }, { a with value := "", err := some ("argument " ++ a.dash ++ a.name ++ " needs a value") }) := by
      rw [applyArgStep_eq_of_arg fl a hk, hac, hskip]
    rw [happ]
    exact ⟨rfl, rfl⟩
  · intro htv hu
    have he1 : effVal fl.valueType a = "" := by
      unfold effVal
      rw [if_neg (by rw [htv]; simp)]
      exact hv
    have hac : argCheck fl.valueType a = { a with value := "" } := by
      unfold argCheck
      dsimp only
      rw [he1, if_pos (by simp),
        if_neg (by rw [htv]; simp [isBoolKind, isStringKind, hu]),
        if_neg (by rw [htv]; simp [isBoolKind, isStringKind])]
    have hns : goStartsWith fl.valueType "[]" = false := by
      rw [htv]
      decide
    have hsf : setFlagValue fl.valueType fl.value (effVal fl.valueType a) =
        Except.ok (GoValue.scalar (GoScalar.s "")) := by
      rw [he1, htv]
      rfl
    have happ : applyArgStep fl a = ({ fl with valueBy := "arg", value := GoValue.scalar (GoScalar.s "") }, { a with value := "" }) := by
      rw [applyArgStep_compute fl a hk hns, hac, if_neg (by simp [he]), hsf]
    rw [happ]
    exact ⟨he, rfl⟩

/-- C4 (counterexample): the full pipeline on the single token `--str=""`
for a string flag: the claim says this errors ("needs a value"), but the
code marks the value explicitly unset, accepts it, reports no error at all,
and resolves the flag to the empty string. -/
theorem value_defaulting_counterexample :
    flagErrors
      (resolveTokens (fun _ => none)
        { valueType := "string", long := "str", value := zeroValue "string" }
        ["--str=\"\""]).1
      (resolveTokens (fun _ => none)
        { valueType := "string", long := "str", value := zeroValue "string" }
        ["--str=\"\""]).2 = [] ∧
    (resolveTokens (fun _ => none)
        { valueType := "string", long := "str", value := zeroValue "string" }
        ["--str=\"\""]).1.value = GoValue.scalar (GoScalar.s "") ∧
    (matchedArgs "" "str" (parseTokens ["--str=\"\""])).length = 1 := by
  refine ⟨by decide, by decide, by decide⟩

/-- Witness for `value_defaulting_cases`: a bool flag matched by the bare
token `--b` resolves to `true` with no error. -/
theorem value_defaulting_cases_witness :
    (applyArgStep { valueType := "bool", long := "b" }
        { arg := "--b", name := "b", dash := "--", kind := "arg" }).1.value =
      GoValue.scalar (GoScalar.b true) ∧
    (applyArgStep { valueType := "bool", long := "b" }
        { arg := "--b", name := "b", dash := "--", kind := "arg" }).2.err = none := by
  exact (value_defaulting_cases { valueType := "bool", long := "b" }
    { arg := "--b", name := "b", dash := "--", kind := "arg" } rfl rfl rfl).1 rfl rfl

/-! Character-list lemmas for the segmentation theorems. -/

theorem dropWhile_forall_neg (p : Char → Bool) (l : List Char)
    (h : ∀ b ∈ l, p b = false) : l.dropWhile p = l := by
  cases l with
  | nil => rfl
  | cons x xs => simp [List.dropWhile, h x (by simp)]

theorem idxOfC_none (c : Char) (l : List Char) (h : ∀ b ∈ l, ¬b = c) :
    idxOfC c l = none := by
  induction l with
  | nil => rfl
  | cons b bs ih =>
    unfold idxOfC
    rw [if_neg (by simp [h b (by simp)]), ih (fun x hx => h x (by simp [hx]))]
    rfl

theorem idxOfC_append_none (c : Char) (xs l : List Char) (h : ∀ b ∈ xs, ¬b = c) :
    idxOfC c (xs ++ l) = (idxOfC c l).map (fun i => i + xs.length) := by
  induction xs with
  | nil => cases hi : idxOfC c l <;> simp [hi]
  | cons b bs ih =>
    have hstep : idxOfC c (b :: (bs ++ l)) =
        if (b == c) = true then some 0
        else (idxOfC c (bs ++ l)).map (fun x => x + 1) := rfl
    rw [List.cons_append, hstep, if_neg (by simp [h b (by simp)]),
      ih (fun x hx => h x (by simp [hx]))]
    cases hi : idxOfC c l with
    | none => simp
    | some i =>
      simp
      omega

theorem splitAtFirst_append (c : Char) (xs l : List Char) (h : ∀ b ∈ xs, ¬b = c) :
    splitAtFirst c (xs ++ c :: l) = (xs, l) := by
  induction xs with
  | nil => simp [splitAtFirst]
  | cons b bs ih =>
    rw [List.cons_append]
    unfold splitAtFirst
    rw [if_neg (by simp [h b (by simp)])]
    dsimp only
    rw [ih (fun x hx => h x (by simp [hx]))]

theorem goTrimChar_wrap (c : Char) (l : List Char) (h : ∀ b ∈ l, ¬b = c) :
    goTrimChar c (c :: (l ++ [c])) = l := by
  unfold goTrimChar trimLeadingWhile trimTrailingWhile
  rw [List.dropWhile_cons_of_pos (by simp)]
  cases l with
  | nil => simp [List.dropWhile]
  | cons x xs =>
    rw [List.cons_append, List.dropWhile_cons_of_neg (by simp [h x (by simp)])]
    rw [show (x :: (xs ++ [c])).reverse = c :: (xs.reverse ++ [x]) by simp]
    rw [List.dropWhile_cons_of_pos (by simp)]
    rw [dropWhile_forall_neg _ _ ?_]
    · simp
    · intro b hb
      have hb2 : b ∈ x :: xs := by
        rcases List.mem_append.mp hb with h1 | h1
        · exact List.mem_cons_of_mem x (List.mem_reverse.mp h1)
        · simp at h1
          simp [h1]
      simp [h b hb2]

theorem stripQuotes_wrap (q : Char) (v : String) (hq : q = dq ∨ q = sq)
    (hv : ∀ b ∈ v.toList, ¬b = q) :
    stripQuotes (String.mk (q :: (v.toList ++ [q]))) = v := by
  have ht : goTrimChar q ((String.mk (q :: (v.toList ++ [q]))).toList) = v.toList :=
    goTrimChar_wrap q v.toList hv
  rcases hq with h | h <;> subst h
  · unfold stripQuotes
    rw [if_pos (by simp [goStartsWith, List.isPrefixOf]), ht]
    rfl
  · unfold stripQuotes
    rw [if_neg (by simp [goStartsWith, List.isPrefixOf, show (dq == sq) = false by decide]),
      if_pos (by simp [goStartsWith, List.isPrefixOf]), ht]
    rfl

theorem goTrimSpace_ends (x y : Char) (xs : List Char)
    (hx : x.isWhitespace = false) (hy : y.isWhitespace = false) :
    goTrimSpace (String.mk (x :: (xs ++ [y]))) = String.mk (x :: (xs ++ [y])) := by
  unfold goTrimSpace trimLeadingWhile trimTrailingWhile
  rw [show (String.mk (x :: (xs ++ [y]))).toList = x :: (xs ++ [y]) from rfl]
  rw [List.dropWhile_cons_of_neg (by simp [hx])]
  rw [show (x :: (xs ++ [y])).reverse = y :: (xs.reverse ++ [x]) by simp]
  rw [List.dropWhile_cons_of_neg (by simp [hy])]
  rw [show (y :: (xs.reverse ++ [x])).reverse = x :: (xs ++ [y]) by simp]

theorem goTrimSpace_all (l : List Char) (h : ∀ b ∈ l, b.isWhitespace = false) :
    goTrimSpace (String.mk l) = String.mk l := by
  unfold goTrimSpace trimLeadingWhile trimTrailingWhile
  rw [show (String.mk l).toList = l from rfl]
  rw [dropWhile_forall_neg _ _ h]
  rw [dropWhile_forall_neg _ _ (fun b hb => h b (List.mem_reverse.mp hb))]
  rw [List.reverse_reverse]

theorem parseTokens_one (s : String)
    (hd : ¬((classifyArg (mkArg s)).dash == "") = true)
    (he : eqBeforeQuote (classifyArg (mkArg s)).name = true) :
    parseTokens [s] = [procEq (classifyArg (mkArg s))] := by
  have h0 : parseTokens [s] = parseArgsLoop [mkArg s] := rfl
  rw [h0]
  unfold parseArgsLoop
  dsimp only
  rw [if_neg (by simp [mkArg]), if_neg hd, if_pos he]

theorem parseTokens_two (s t : String)
    (hd : ¬((classifyArg (mkArg s)).dash == "") = true)
    (he : ¬eqBeforeQuote (classifyArg (mkArg s)).name = true)
    (hnx : (((mkArg t).kind == "arg") && !(goStartsWith (mkArg t).arg "-")) = true) :
    parseTokens [s, t] =
      [{ classifyArg (mkArg s) with value := stripQuotes t },
       { mkArg t with kind := "argval", value := stripQuotes t }] := by
  have h0 : parseTokens [s, t] = parseArgsLoop [mkArg s, mkArg t] := rfl
  rw [h0]
  unfold parseArgsLoop
  dsimp only
  rw [if_neg (by simp [mkArg]), if_neg hd, if_neg he, if_pos hnx]
  rfl

theorem eqBeforeQuote_dq (n v : String) (hn : plainName n) (_hv : noQuotes v) :
    eqBeforeQuote (String.mk (n.toList ++ '=' :: dq :: (v.toList ++ [dq]))) = true := by
  have h1 : idxOfC '=' (n.toList ++ '=' :: dq :: (v.toList ++ [dq])) =
      some (0 + n.toList.length) := by
    rw [idxOfC_append_none '=' n.toList _ (fun b hb => (hn.2 b hb).2.2.1)]
    rw [show idxOfC '=' ('=' :: dq :: (v.toList ++ [dq])) = some 0 by simp [idxOfC]]
    rfl
  have h2 : idxOfC dq (n.toList ++ '=' :: dq :: (v.toList ++ [dq])) =
      some (1 + n.toList.length) := by
    rw [idxOfC_append_none dq n.toList _ (fun b hb => (hn.2 b hb).2.2.2.1)]
    rw [show idxOfC dq ('=' :: dq :: (v.toList ++ [dq])) = some 1 by
      simp [idxOfC, show ('=' == dq) = false by decide]]
    rfl
  unfold eqBeforeQuote
  rw [show (String.mk (n.toList ++ '=' :: dq :: (v.toList ++ [dq]))).toList =
    n.toList ++ '=' :: dq :: (v.toList ++ [dq]) from rfl]
  rw [h1, h2]
  dsimp only
  rw [decide_eq_true_eq]
  omega

theorem eqBeforeQuote_sq (n v : String) (hn : plainName n) (hv : noQuotes v) :
    eqBeforeQuote (String.mk (n.toList ++ '=' :: sq :: (v.toList ++ [sq]))) = true := by
  have h1 : idxOfC '=' (n.toList ++ '=' :: sq :: (v.toList ++ [sq])) =
      some (0 + n.toList.length) := by
    rw [idxOfC_append_none '=' n.toList _ (fun b hb => (hn.2 b hb).2.2.1)]
    rw [show idxOfC '=' ('=' :: sq :: (v.toList ++ [sq])) = some 0 by simp [idxOfC]]
    rfl
  have h2 : idxOfC dq (n.toList ++ '=' :: sq :: (v.toList ++ [sq])) = none := by
    refine idxOfC_none dq _ ?_
    intro b hb
    rcases List.mem_append.mp hb with hb1 | hb1
    · exact (hn.2 b hb1).2.2.2.1
    · simp at hb1
      rcases hb1 with h | h | h | h
      · subst h
        decide
      · subst h
        decide
      · exact (hv b h).1
      · subst h
        decide
  have h3 : idxOfC sq (n.toList ++ '=' :: sq :: (v.toList ++ [sq])) =
      some (1 + n.toList.length) := by
    rw [idxOfC_append_none sq n.toList _ (fun b hb => (hn.2 b hb).2.2.2.2)]
    rw [show idxOfC sq ('=' :: sq :: (v.toList ++ [sq])) = some 1 by
      simp [idxOfC, show ('=' == sq) = false by decide]]
    rfl
  unfold eqBeforeQuote
  rw [show (String.mk (n.toList ++ '=' :: sq :: (v.toList ++ [sq]))).toList =
    n.toList ++ '=' :: sq :: (v.toList ++ [sq]) from rfl]
  rw [h1, h2, h3]
  dsimp only
  rw [decide_eq_true_eq]
  omega

theorem parseTokens_eq_quoted (n v : String) (q : Char) (hn : plainName n)
    (hq : q = dq ∨ q = sq) (hv : noQuotes v)
    (heq : eqBeforeQuote (String.mk (n.toList ++ '=' :: q :: (v.toList ++ [q]))) = true) :
    parseTokens ["--" ++ n ++ "=" ++ String.mk (q :: (v.toList ++ [q]))] =
      [{ arg := "--" ++ n ++ "=" ++ String.mk (q :: (v.toList ++ [q])), name := n, value := v, dash := "--", hasEq := true, unset := (v == ""), kind := "arg" }] := by
  obtain ⟨c, cs, hL⟩ : ∃ c cs, n.toList = c :: cs := by
    cases h0 : n.toList with
    | nil => exact absurd h0 hn.1
    | cons c cs => exact ⟨c, cs, rfl⟩
  have hcmem : c ∈ n.toList := by
    rw [hL]
    simp
  have hqws : q.isWhitespace = false := by
    rcases hq with h | h <;> subst h <;> decide
  have hvq : ∀ b ∈ v.toList, ¬b = q := by
    intro b hb
    rcases hq with h | h <;> subst h
    · exact (hv b hb).1
    · exact (hv b hb).2
  have hs : ("--" ++ n ++ "=" ++ String.mk (q :: (v.toList ++ [q]))).toList =
      '-' :: '-' :: (n.toList ++ '=' :: q :: (v.toList ++ [q])) := by
    simp
  have hd : ('-' :: '-' :: (n.toList ++ '=' :: q :: (v.toList ++ [q]))).dropWhile
      (fun c => c == '-') = n.toList ++ '=' :: q :: (v.toList ++ [q]) := by
    rw [List.dropWhile_cons_of_pos (by simp), List.dropWhile_cons_of_pos (by simp)]
    rw [hL, List.cons_append]
    rw [List.dropWhile_cons_of_neg (by simp [(hn.2 c hcmem).2.1])]
  have hsp : goTrimSpace (String.mk (n.toList ++ '=' :: q :: (v.toList ++ [q]))) =
      String.mk (n.toList ++ '=' :: q :: (v.toList ++ [q])) := by
    rw [show n.toList ++ '=' :: q :: (v.toList ++ [q]) =
      c :: ((cs ++ '=' :: q :: v.toList) ++ [q]) by rw [hL]; simp]
    exact goTrimSpace_ends c q _ (by simpa using (hn.2 c hcmem).1) hqws
  have hdash : goStartsWith ("--" ++ n ++ "=" ++ String.mk (q :: (v.toList ++ [q]))) "--" =
      true := by
    unfold goStartsWith
    rw [hs]
    simp [List.isPrefixOf]
  have hcl : classifyArg (mkArg ("--" ++ n ++ "=" ++ String.mk (q :: (v.toList ++ [q])))) = { arg := "--" ++ n ++ "=" ++ String.mk (q :: (v.toList ++ [q])), name := String.mk (n.toList ++ '=' :: q :: (v.toList ++ [q])), dash := "--", kind := "arg" } := by
    unfold classifyArg mkArg goTrimLeftDashes
    dsimp only
    rw [hs, hd, hsp, if_pos hdash]
  have hstrip : stripQuotes (String.mk (q :: (v.toList ++ [q]))) = v :=
    stripQuotes_wrap q v hq hvq
  have hpe : procEq { arg := "--" ++ n ++ "=" ++ String.mk (q :: (v.toList ++ [q])), name := String.mk (n.toList ++ '=' :: q :: (v.toList ++ [q])), dash := "--", kind := "arg" } = { arg := "--" ++ n ++ "=" ++ String.mk (q :: (v.toList ++ [q])), name := n, value := v, dash := "--", hasEq := true, unset := (v == ""), kind := "arg" } := by
    unfold procEq
    dsimp only
    rw [show (String.mk (n.toList ++ '=' :: q :: (v.toList ++ [q]))).toList =
      n.toList ++ '=' :: q :: (v.toList ++ [q]) from rfl]
    rw [splitAtFirst_append '=' n.toList _ (fun b hb => (hn.2 b hb).2.2.1)]
    dsimp only
    rw [hstrip]
    rfl
  rw [parseTokens_one ("--" ++ n ++ "=" ++ String.mk (q :: (v.toList ++ [q])))
    (by rw [hcl]; simp) (by rw [hcl]; exact heq), hcl, hpe]

theorem parseTokens_bare_quoted (n v : String) (q : Char) (hn : plainName n)
    (hq : q = dq ∨ q = sq) (hv : noQuotes v) :
    parseTokens ["--" ++ n, String.mk (q :: (v.toList ++ [q]))] =
      [{ arg := "--" ++ n, name := n, value := v, dash := "--", kind := "arg" },
       { arg := String.mk (q :: (v.toList ++ [q])), value := v, kind := "argval" }] := by
  obtain ⟨c, cs, hL⟩ : ∃ c cs, n.toList = c :: cs := by
    cases h0 : n.toList with
    | nil => exact absurd h0 hn.1
    | cons c cs => exact ⟨c, cs, rfl⟩
  have hcmem : c ∈ n.toList := by
    rw [hL]
    simp
  have hvq : ∀ b ∈ v.toList, ¬b = q := by
    intro b hb
    rcases hq with h | h <;> subst h
    · exact (hv b hb).1
    · exact (hv b hb).2
  have hq2 : ('-' == q) = false := by
    rcases hq with h | h <;> subst h <;> decide
  have hs2 : ("--" ++ n).toList = '-' :: '-' :: n.toList := by
    simp
  have hd2 : ('-' :: '-' :: n.toList).dropWhile (fun c => c == '-') = n.toList := by
    rw [List.dropWhile_cons_of_pos (by simp), List.dropWhile_cons_of_pos (by simp), hL,
      List.dropWhile_cons_of_neg (by simp [(hn.2 c hcmem).2.1])]
  have hsp2 : goTrimSpace (String.mk n.toList) = String.mk n.toList :=
    goTrimSpace_all n.toList (fun b hb => by simpa using (hn.2 b hb).1)
  have hdash2 : goStartsWith ("--" ++ n) "--" = true := by
    unfold goStartsWith
    rw [hs2]
    simp [List.isPrefixOf]
  have hcl2 : classifyArg (mkArg ("--" ++ n)) = { arg := "--" ++ n, name := n, dash := "--", kind := "arg" } := by
    unfold classifyArg mkArg goTrimLeftDashes
    dsimp only
    rw [hs2, hd2, hsp2, if_pos hdash2]
    rfl
  have hnoeq : eqBeforeQuote n = false := by
    unfold eqBeforeQuote
    rw [idxOfC_none '=' n.toList (fun b hb => (hn.2 b hb).2.2.1)]
  have hstrip : stripQuotes (String.mk (q :: (v.toList ++ [q]))) = v :=
    stripQuotes_wrap q v hq hvq
  have hnx : (((mkArg (String.mk (q :: (v.toList ++ [q])))).kind == "arg") &&
      !(goStartsWith (mkArg (String.mk (q :: (v.toList ++ [q])))).arg "-")) = true := by
    simp [mkArg, goStartsWith, List.isPrefixOf, hq2,
      show ("-" : String).toList = ['-'] from rfl]
  rw [parseTokens_two ("--" ++ n) (String.mk (q :: (v.toList ++ [q])))
    (by rw [hcl2]; simp) (by rw [hcl2]; simp [hnoeq]) hnx, hcl2, hstrip]
  rfl

/-- C9 (amended): when a `--name=<v>` token's value part begins with a
double or single quote, segmentation strips ALL leading and trailing
occurrences of that quote character (Go `strings.Trim`), not exactly one
matching pair.  Consequently, for every plain flag name and every quote-free
value string v, `--name="v"` and `--name='v'` both parse to an occurrence
whose value is the literal v (in particular `"a b"` and `'a b'` give
`a b`), and a following bare quoted value token is stripped by the same
function with the same result; but a value part such as `""a""` loses all
four quotes rather than one pair — see the counterexample. -/
theorem quote_strip_resolution (n v : String) (hn : plainName n) (hv : noQuotes v) :
    parseTokens ["--" ++ n ++ "=" ++ String.mk (dq :: (v.toList ++ [dq]))] =
      [{ arg := "--" ++ n ++ "=" ++ String.mk (dq :: (v.toList ++ [dq])), name := n, value := v, dash := "--", hasEq := true, unset := (v == ""), kind := "arg" }] ∧
    parseTokens ["--" ++ n ++ "=" ++ String.mk (sq :: (v.toList ++ [sq]))] =
      [{ arg := "--" ++ n ++ "=" ++ String.mk (sq :: (v.toList ++ [sq])), name := n, value := v, dash := "--", hasEq := true, unset := (v == ""), kind := "arg" }] ∧
    parseTokens ["--" ++ n, String.mk (dq :: (v.toList ++ [dq]))] =
      [{ arg := "--" ++ n, name := n, value := v, dash := "--", kind := "arg" },
       { arg := String.mk (dq :: (v.toList ++ [dq])), value := v, kind := "argval" }] ∧
    stripQuotes (String.mk (dq :: (v.toList ++ [dq]))) = v ∧
    stripQuotes (String.mk (sq :: (v.toList ++ [sq]))) = v := by
  refine ⟨?_, ?_, ?_, ?_, ?_⟩
  · exact parseTokens_eq_quoted n v dq hn (Or.inl rfl) hv (eqBeforeQuote_dq n v hn hv)
  · exact parseTokens_eq_quoted n v sq hn (Or.inr rfl) hv (eqBeforeQuote_sq n v hn hv)
  · exact parseTokens_bare_quoted n v dq hn (Or.inl rfl) hv
  · exact stripQuotes_wrap dq v (Or.inl rfl) (fun b hb => (hv b hb).1)
  · exact stripQuotes_wrap sq v (Or.inr rfl) (fun b hb => (hv b hb).2)

/-- C9 (counterexample): the token `--n=""a""`: the code strips every
leading/trailing double quote of the value part `""a""`, yielding the value
`a` (also at full string-flag resolution), while stripping exactly one
matching pair as the claim states would yield `"a"`. -/
theorem quote_strip_counterexample :
    (parseTokens ["--n=\"\"a\"\""]).map (fun a => a.value) = ["a"] ∧
    specOnePairStrip "\"\"a\"\"" = "\"a\"" ∧
    (resolveTokens (fun _ => none)
      { valueType := "string", long := "n", value := zeroValue "string" }
      ["--n=\"\"a\"\""]).1.value = GoValue.scalar (GoScalar.s "a") ∧
    ¬("a" : String) = "\"a\"" := by
  refine ⟨by decide, by decide, by decide, by decide⟩

/-- Witness for `quote_strip_resolution`: `--name="a b"` parses to one
occurrence with name `name` and value `a b`. -/
theorem quote_strip_resolution_witness :
    parseTokens ["--name=\"a b\""] =
      [{ arg := "--name=\"a b\"", name := "name", value := "a b", dash := "--", hasEq := true, unset := false, kind := "arg" }] := by
  have h := (quote_strip_resolution "name" "a b" (by decide) (by decide)).1
  have hb : ("--" ++ "name" ++ "=" ++ String.mk (dq :: (("a b").toList ++ [dq]))) =
      "--name=\"a b\"" := by decide
  rw [hb] at h
  rw [h]
  decide

end Gocmd

